import Mathlib

/-!
Verification development for the Twinset site indexer
(`scripts/twinset_site_indexer.py`).

The Python source is shallowly embedded over `List Char` (Python `str`):
pure string functions become Lean functions, the SQLite tables become
lists of records with explicit state passing, timestamps become an
abstract monotone `Nat` clock, and the network is an explicit oracle
parameter.  URL handling follows CPython 3.11 `urllib.parse`
(`urlsplit` / `urlparse` / `urlunsplit` / `_splitparams`), restricted to
ASCII as all characters the indexer manipulates are ASCII; the
validation-only checks of `urlsplit` (IPv6 bracket checks,
`_checknetloc`) only raise and never change a returned value, so the
embedding is total.
-/

namespace TwinsetIndexer

/-! ### ASCII character classes (Python `str` predicates, ASCII range) -/

/-- ASCII uppercase letter test (`'A'..'Z'`). -/
def isAsciiUpper (c : Char) : Bool := decide (65 ≤ c.toNat ∧ c.toNat ≤ 90)

/-- ASCII lowercase letter test (`'a'..'z'`). -/
def isAsciiLower (c : Char) : Bool := decide (97 ≤ c.toNat ∧ c.toNat ≤ 122)

/-- ASCII letter test: Python `c.isascii() and c.isalpha()`. -/
def isAsciiAlpha (c : Char) : Bool := isAsciiUpper c || isAsciiLower c

/-- ASCII digit test (`'0'..'9'`), Python `\d` restricted to ASCII. -/
def isAsciiDigit (c : Char) : Bool := decide (48 ≤ c.toNat ∧ c.toNat ≤ 57)

/-- ASCII alphanumeric, as matched by `[0-9A-Z]` under `re.IGNORECASE`. -/
def isAsciiAlnum (c : Char) : Bool := isAsciiDigit c || isAsciiAlpha c

/-- ASCII case lowering: Python `str.lower` on the ASCII range. -/
def lowerChar (c : Char) : Char :=
  if 65 ≤ c.toNat ∧ c.toNat ≤ 90 then Char.ofNat (c.toNat + 32) else c

/-- ASCII case raising: Python `str.upper` on the ASCII range. -/
def upperChar (c : Char) : Char :=
  if 97 ≤ c.toNat ∧ c.toNat ≤ 122 then Char.ofNat (c.toNat - 32) else c

/-- Python `str.lower` over a whole string (ASCII model). -/
def lowerStr (l : List Char) : List Char := l.map lowerChar

/-- Python `str.upper` over a whole string (ASCII model). -/
def upperStr (l : List Char) : List Char := l.map upperChar

/-- Characters of `urllib.parse.scheme_chars`. -/
def isSchemeChar (c : Char) : Bool :=
  isAsciiAlpha c || isAsciiDigit c || decide (c = '+') || decide (c = '-') || decide (c = '.')

/-- The three bytes of `_UNSAFE_URL_BYTES_TO_REMOVE` (`"\t"`, `"\r"`, `"\n"`). -/
def isUnsafeUrlByte (c : Char) : Bool := decide (c = '\t' ∨ c = '\r' ∨ c = '\n')

/-- `_WHATWG_C0_CONTROL_OR_SPACE`: C0 controls and the space character. -/
def isC0OrSpace (c : Char) : Bool := decide (c.toNat ≤ 32)

/-! ### Python string helpers over `List Char` -/

/-- Python whitespace test for `\s` (ASCII model: space, tab, LF, CR, VT, FF). -/
def isPySpace (c : Char) : Bool :=
  decide (c = ' ' ∨ c = '\t' ∨ c = '\n' ∨ c = '\r' ∨ c = '\x0b' ∨ c = '\x0c')

/-- Number of occurrences of a character, Python `str.count`. -/
def countChar (c : Char) (l : List Char) : Nat := l.countP (fun d => decide (d = c))

/-- Python `str.split(sep, 1)` restricted to the first component / remainder:
returns the part before the first occurrence of `ch` and the part after it
(the remainder is `[]` when `ch` does not occur, matching the callers which
guard with `ch in s`). -/
def splitOnFirst (ch : Char) (l : List Char) : List Char × List Char :=
  (l.takeWhile (fun c => decide (c ≠ ch)), (l.dropWhile (fun c => decide (c ≠ ch))).tail)

/-! ### CPython 3.11 `urllib.parse` model -/

/-- `urlsplit`'s input sanitising: `url.lstrip(_WHATWG_C0_CONTROL_OR_SPACE)`
followed by removal of every `"\t"`, `"\r"`, `"\n"`. -/
def pySanitize (l : List Char) : List Char :=
  (l.dropWhile isC0OrSpace).filter (fun c => !isUnsafeUrlByte c)

/-- Scheme extraction step of `urlsplit`: on `i = url.find(':')`, when
`i > 0`, `url[0]` is an ASCII letter and every character of `url[:i]` is in
`scheme_chars`, return `(url[:i].lower(), url[i+1:])`; otherwise no scheme. -/
def splitScheme (url : List Char) : List Char × List Char :=
  let before := url.takeWhile (fun c => decide (c ≠ ':'))
  let rest := url.dropWhile (fun c => decide (c ≠ ':'))
  if rest ≠ [] ∧ before ≠ [] ∧ before.head?.any isAsciiAlpha ∧ before.all isSchemeChar
  then (before.map lowerChar, rest.tail)
  else ([], url)

/-- Delimiter set of `_splitnetloc` (`'/'`, `'?'`, `'#'`). -/
def isNetlocDelim (c : Char) : Bool := decide (c = '/' ∨ c = '?' ∨ c = '#')

/-- Netloc extraction step of `urlsplit`: when `url[:2] == '//'`, split the
rest at the earliest of `'/'`, `'?'`, `'#'` (`_splitnetloc(url, 2)`). -/
def splitNetloc (url : List Char) : List Char × List Char :=
  if url.take 2 = ['/', '/'] then
    let rest := url.drop 2
    (rest.takeWhile (fun c => !isNetlocDelim c), rest.dropWhile (fun c => !isNetlocDelim c))
  else ([], url)

/-- Result record of `urlsplit` (query/fragment before params are split). -/
structure SplitResult where
  scheme : List Char
  netloc : List Char
  path : List Char
  query : List Char
  fragment : List Char
  deriving Repr, DecidableEq

/-- Fragment split step of `urlsplit`: `if '#' in url: url, fragment = url.split('#', 1)`. -/
def splitFragment (u : List Char) : List Char × List Char :=
  if u.contains '#' then splitOnFirst '#' u else (u, [])

/-- Query split step of `urlsplit`: `if '?' in url: url, query = url.split('?', 1)`. -/
def splitQuery (u : List Char) : List Char × List Char :=
  if u.contains '?' then splitOnFirst '?' u else (u, [])

/-- CPython 3.11 `urlsplit(url)` with default arguments (`scheme=''`,
`allow_fragments=True`).  The IPv6 / `_checknetloc` validations only raise
and never alter a returned value, so they are omitted. -/
def pyUrlsplit (url : List Char) : SplitResult :=
  let u0 := pySanitize url
  let su := splitScheme u0
  let nu := splitNetloc su.2
  let uf := splitFragment nu.2
  let pq := splitQuery uf.1
  ⟨su.1, nu.1, pq.1, pq.2, uf.2⟩

/-- `urllib.parse.uses_params` (schemes whose paths carry `;params`). -/
def usesParams : List (List Char) :=
  [[], "ftp".data, "hdl".data, "prospero".data, "http".data, "imap".data,
   "https".data, "shttp".data, "rtsp".data, "rtsps".data, "rtspu".data,
   "sip".data, "sips".data, "mms".data, "sftp".data, "tel".data]

/-- `urllib.parse.uses_netloc` (schemes for which `urlunsplit` re-adds `//`). -/
def usesNetloc : List (List Char) :=
  [[], "ftp".data, "http".data, "gopher".data, "nntp".data, "telnet".data,
   "imap".data, "wais".data, "file".data, "mms".data, "https".data,
   "shttp".data, "snews".data, "prospero".data, "rtsp".data, "rtsps".data,
   "rtspu".data, "rsync".data, "svn".data, "svn+ssh".data, "sftp".data,
   "nfs".data, "git".data, "git+ssh".data, "ws".data, "wss".data]

/-- `_splitparams(url)`: split at the first `';'` located at or after the
last `'/'` (or the first `';'` at all when there is no `'/'`); when no such
`';'` exists return `(url, '')`. -/
def pySplitParams (p : List Char) : List Char × List Char :=
  if p.contains '/' then
    let pre := (p.reverse.dropWhile (fun c => decide (c ≠ '/'))).reverse
    let tl := (p.reverse.takeWhile (fun c => decide (c ≠ '/'))).reverse
    let a := tl.takeWhile (fun c => decide (c ≠ ';'))
    let b := tl.dropWhile (fun c => decide (c ≠ ';'))
    if b = [] then (p, []) else (pre ++ a, b.tail)
  else
    let a := p.takeWhile (fun c => decide (c ≠ ';'))
    let b := p.dropWhile (fun c => decide (c ≠ ';'))
    if b = [] then (p, []) else (a, b.tail)

/-- Result record of `urlparse` (path with `params` split off). -/
structure ParseResult where
  scheme : List Char
  netloc : List Char
  path : List Char
  params : List Char
  query : List Char
  fragment : List Char
  deriving Repr, DecidableEq

/-- CPython 3.11 `urlparse(url)`: `urlsplit` plus the params split, applied
when the scheme is in `uses_params` and the path contains `';'`. -/
def pyUrlparse (url : List Char) : ParseResult :=
  let s := pyUrlsplit url
  if s.scheme ∈ usesParams ∧ s.path.contains ';' then
    let pp := pySplitParams s.path
    ⟨s.scheme, s.netloc, pp.1, pp.2, s.query, s.fragment⟩
  else
    ⟨s.scheme, s.netloc, s.path, [], s.query, s.fragment⟩

/-- CPython 3.11 `urlunsplit((scheme, netloc, url, query, fragment))`. -/
def pyUrlunsplit (scheme netloc url query fragment : List Char) : List Char :=
  let u1 :=
    if netloc ≠ [] ∨ (scheme ≠ [] ∧ scheme ∈ usesNetloc ∧ url.take 2 ≠ ['/', '/']) then
      ('/' :: '/' :: netloc) ++ (if url ≠ [] ∧ url.head? ≠ some '/' then '/' :: url else url)
    else url
  let u2 := if scheme ≠ [] then scheme ++ ':' :: u1 else u1
  let u3 := if query ≠ [] then u2 ++ '?' :: query else u2
  if fragment ≠ [] then u3 ++ '#' :: fragment else u3

/-- `ParseResult.geturl()` (via `urlunparse`): re-join `path;params` when
params are present, then `urlunsplit`. -/
def pyGeturl (pr : ParseResult) : List Char :=
  let u := if pr.params ≠ [] then pr.path ++ ';' :: pr.params else pr.path
  pyUrlunsplit pr.scheme pr.netloc u pr.query pr.fragment

/-! ### `strip_query_and_fragment` (twinset_site_indexer.py, lines 59–65) -/

/-- `strip_query_and_fragment(url)`: parse, clear query and fragment,
re-serialise; then drop one trailing `'/'` when the host ends in
`twinset.com` and the normalized form has more than three slashes. -/
def strip_query_and_fragment (url : List Char) : List Char :=
  let parsed := pyUrlparse url
  let clean : ParseResult :=
    { parsed with query := [], fragment := [] }
  let normalized := pyGeturl clean
  if normalized.getLast? = some '/' ∧ "twinset.com".data.isSuffixOf parsed.netloc ∧
      3 < countChar '/' normalized then
    normalized.dropLast
  else
    normalized

/-! ### Character-level lemmas -/

theorem toNat_ofNat_small (n : Nat) (h : n < 55296) : (Char.ofNat n).toNat = n := by
  unfold Char.ofNat
  rw [dif_pos (Or.inl h)]
  simp [Char.ofNatAux, Char.toNat, UInt32.toNat]

theorem lowerChar_lowerChar (c : Char) : lowerChar (lowerChar c) = lowerChar c := by
  unfold lowerChar
  by_cases h : 65 ≤ c.toNat ∧ c.toNat ≤ 90
  · rw [if_pos h, toNat_ofNat_small (c.toNat + 32) (by omega), if_neg (by omega)]
  · rw [if_neg h, if_neg h]

theorem isAsciiAlpha_lowerChar (c : Char) (h : isAsciiAlpha c = true) :
    isAsciiAlpha (lowerChar c) = true := by
  unfold lowerChar
  by_cases h2 : 65 ≤ c.toNat ∧ c.toNat ≤ 90
  · rw [if_pos h2]
    simp only [isAsciiAlpha, isAsciiUpper, isAsciiLower, Bool.or_eq_true, decide_eq_true_eq,
      toNat_ofNat_small (c.toNat + 32) (by omega)]
    omega
  · rwa [if_neg h2]

theorem isSchemeChar_lowerChar (c : Char) (h : isSchemeChar c = true) :
    isSchemeChar (lowerChar c) = true := by
  unfold lowerChar
  by_cases h2 : 65 ≤ c.toNat ∧ c.toNat ≤ 90
  · rw [if_pos h2]
    simp only [isSchemeChar, isAsciiAlpha, isAsciiUpper, isAsciiLower, isAsciiDigit,
      Bool.or_eq_true, decide_eq_true_eq, toNat_ofNat_small (c.toNat + 32) (by omega)]
    omega
  · rwa [if_neg h2]

theorem isSchemeChar_toNat (c : Char) (h : isSchemeChar c = true) :
    (65 ≤ c.toNat ∧ c.toNat ≤ 90) ∨ (97 ≤ c.toNat ∧ c.toNat ≤ 122) ∨
      (48 ≤ c.toNat ∧ c.toNat ≤ 57) ∨ c.toNat = 43 ∨ c.toNat = 45 ∨ c.toNat = 46 := by
  simp only [isSchemeChar, isAsciiAlpha, isAsciiUpper, isAsciiLower, isAsciiDigit,
    Bool.or_eq_true, decide_eq_true_eq] at h
  rcases h with ((((h | h) | h) | h) | h) | h
  · exact Or.inl h
  · exact Or.inr (Or.inl h)
  · exact Or.inr (Or.inr (Or.inl h))
  · subst h; exact Or.inr (Or.inr (Or.inr (Or.inl rfl)))
  · subst h; exact Or.inr (Or.inr (Or.inr (Or.inr (Or.inl rfl))))
  · subst h; exact Or.inr (Or.inr (Or.inr (Or.inr (Or.inr rfl))))

theorem isSchemeChar_ne_colon (c : Char) (h : isSchemeChar c = true) : c ≠ ':' := by
  intro rfl_h
  subst rfl_h
  exact absurd h (by decide)

theorem isSchemeChar_not_unsafe (c : Char) (h : isSchemeChar c = true) :
    isUnsafeUrlByte c = false := by
  have := isSchemeChar_toNat c h
  simp only [isUnsafeUrlByte, decide_eq_false_iff_not]
  rintro (rfl | rfl | rfl) <;> revert this <;> decide

theorem isSchemeChar_not_c0 (c : Char) (h : isSchemeChar c = true) :
    isC0OrSpace c = false := by
  have := isSchemeChar_toNat c h
  simp only [isC0OrSpace, decide_eq_false_iff_not]
  omega

theorem isSchemeChar_not_delim (c : Char) (h : isSchemeChar c = true) :
    isNetlocDelim c = false := by
  have := isSchemeChar_toNat c h
  simp only [isNetlocDelim, decide_eq_false_iff_not]
  rintro (rfl | rfl | rfl) <;> revert this <;> decide

/-! ### List splitting lemmas -/

theorem takeWhile_append_all {p : Char → Bool} {a : List Char} (b : List Char)
    (h : ∀ c ∈ a, p c = true) : (a ++ b).takeWhile p = a ++ b.takeWhile p := by
  induction a with
  | nil => simp
  | cons x xs ih =>
    simp only [List.cons_append, List.takeWhile_cons, h x (by simp)]
    simp only [if_true]
    rw [ih (fun c hc => h c (by simp [hc]))]

theorem dropWhile_append_all {p : Char → Bool} {a : List Char} (b : List Char)
    (h : ∀ c ∈ a, p c = true) : (a ++ b).dropWhile p = b.dropWhile p := by
  induction a with
  | nil => simp
  | cons x xs ih =>
    simp only [List.cons_append, List.dropWhile_cons, h x (by simp), if_true]
    exact ih (fun c hc => h c (by simp [hc]))

theorem dropWhile_head_false {p : Char → Bool} {l : List Char} {c : Char} {t : List Char}
    (h : l.dropWhile p = c :: t) : p c = false := by
  induction l with
  | nil => simp at h
  | cons x xs ih =>
    rw [List.dropWhile_cons] at h
    by_cases hx : p x = true
    · rw [if_pos hx] at h; exact ih h
    · rw [if_neg hx] at h
      cases h
      exact Bool.eq_false_iff.mpr (fun hc => hx hc)

theorem length_ge_two_dropLast_head {l : List Char} (h : 2 ≤ l.length) :
    l.dropLast.head? = l.head? := by
  match l, h with
  | a :: b :: t, _ => simp

theorem contains_eq_false_of {l : List Char} {a : Char} (h : ∀ c ∈ l, c ≠ a) :
    l.contains a = false := by
  rw [Bool.eq_false_iff]
  intro hc
  exact h a (List.elem_iff.mp hc) rfl

theorem pySanitize_eq_self {l : List Char} (h1 : ∀ hd ∈ l.head?, isC0OrSpace hd = false)
    (h2 : ∀ c ∈ l, isUnsafeUrlByte c = false) : pySanitize l = l := by
  unfold pySanitize
  have hd : l.dropWhile isC0OrSpace = l := by
    cases l with
    | nil => rfl
    | cons x xs =>
      rw [List.dropWhile_cons, if_neg]
      simp [h1 x rfl]
  rw [hd, List.filter_eq_self.mpr]
  intro a ha
  simp [h2 a ha]

theorem splitScheme_head_slash (t : List Char) : splitScheme ('/' :: t) = ([], '/' :: t) := by
  have htake : ('/' :: t).takeWhile (fun c => decide (c ≠ ':')) =
      '/' :: t.takeWhile (fun c => decide (c ≠ ':')) := by
    rw [List.takeWhile_cons, if_pos (by decide)]
  simp only [splitScheme, htake]
  rw [if_neg]
  rintro ⟨-, -, hany, -⟩
  rw [List.head?_cons, Option.any_some] at hany
  exact absurd hany (by decide)

theorem splitScheme_scheme (s t : List Char) (hs : s ≠ [])
    (hhead : s.head?.any isAsciiAlpha = true) (hchars : ∀ c ∈ s, isSchemeChar c = true) :
    splitScheme (s ++ ':' :: t) = (s.map lowerChar, t) := by
  have hcolon : ∀ c ∈ s, (fun c => decide (c ≠ ':')) c = true := by
    intro c hc
    simp [isSchemeChar_ne_colon c (hchars c hc)]
  have htake : (s ++ ':' :: t).takeWhile (fun c => decide (c ≠ ':')) = s := by
    rw [takeWhile_append_all _ hcolon, List.takeWhile_cons, if_neg (by simp)]
    simp
  have hdrop : (s ++ ':' :: t).dropWhile (fun c => decide (c ≠ ':')) = ':' :: t := by
    rw [dropWhile_append_all _ hcolon, List.dropWhile_cons, if_neg (by simp)]
  simp only [splitScheme, htake, hdrop]
  rw [if_pos]
  · rfl
  · exact ⟨by simp, hs, hhead, List.all_eq_true.mpr hchars⟩

theorem splitNetloc_shape (n j : List Char) (hno : ∀ c ∈ n, isNetlocDelim c = false)
    (hph : j = [] ∨ j.head? = some '/') :
    splitNetloc ('/' :: '/' :: (n ++ j)) = (n, j) := by
  have hall : ∀ c ∈ n, (fun c => !isNetlocDelim c) c = true := by
    intro c hc; simp [hno c hc]
  have hjt : j.takeWhile (fun c => !isNetlocDelim c) = [] := by
    rcases hph with rfl | hph
    · rfl
    · cases j with
      | nil => rfl
      | cons x xs =>
        simp only [List.head?_cons, Option.some.injEq] at hph
        subst hph
        rw [List.takeWhile_cons, if_neg (by decide)]
  have hjd : j.dropWhile (fun c => !isNetlocDelim c) = j := by
    rcases hph with rfl | hph
    · rfl
    · cases j with
      | nil => rfl
      | cons x xs =>
        simp only [List.head?_cons, Option.some.injEq] at hph
        subst hph
        rw [List.dropWhile_cons, if_neg (by decide)]
  simp only [splitNetloc, if_pos]
  rw [if_pos (by simp)]
  simp only [List.drop_succ_cons, List.drop_zero]
  rw [takeWhile_append_all _ hall, dropWhile_append_all _ hall, hjt, hjd]
  simp

/-- Invariant satisfied by the `(scheme, netloc, path-with-params)` triple of
any `urlparse` result with a nonempty netloc; strong enough to make
`urlunsplit` followed by `urlsplit` the identity on the triple. -/
structure UrlWF (s n j : List Char) : Prop where
  netloc_ne : n ≠ []
  scheme_head : s ≠ [] → s.head?.any isAsciiAlpha = true
  scheme_chars : ∀ c ∈ s, isSchemeChar c = true
  scheme_lower : s.map lowerChar = s
  netloc_ok : ∀ c ∈ n, isNetlocDelim c = false ∧ isUnsafeUrlByte c = false
  path_ok : ∀ c ∈ j, c ≠ '#' ∧ c ≠ '?' ∧ isUnsafeUrlByte c = false
  path_head : j = [] ∨ j.head? = some '/'

theorem unsplit_shape (s n j : List Char) (hn : n ≠ []) (hph : j = [] ∨ j.head? = some '/') :
    pyUrlunsplit s n j [] [] =
      (if s ≠ [] then s ++ [':'] else []) ++ ('/' :: '/' :: (n ++ j)) := by
  have hjmod : (if j ≠ [] ∧ j.head? ≠ some '/' then '/' :: j else j) = j := by
    rcases hph with rfl | hph
    · simp
    · rw [if_neg]
      rintro ⟨-, hne⟩
      exact hne hph
  simp only [pyUrlunsplit]
  rw [if_pos (Or.inl hn), hjmod]
  by_cases hs : s = []
  · subst hs
    simp
  · rw [if_pos hs, if_pos hs, if_neg (by simp), if_neg (by simp)]
    simp [List.append_assoc]

theorem not_mem_of_contains_eq_false {u : List Char} {a : Char} (h : u.contains a = false) :
    a ∉ u := by
  intro hmem
  rw [show u.contains a = u.elem a from rfl, List.elem_iff.mpr hmem] at h
  cases h

theorem splitFragment_clean {u : List Char} (h : u.contains '#' = false) :
    splitFragment u = (u, []) := by
  rw [splitFragment, if_neg]
  rw [h]
  exact Bool.false_ne_true

theorem splitQuery_clean {u : List Char} (h : u.contains '?' = false) :
    splitQuery u = (u, []) := by
  rw [splitQuery, if_neg]
  rw [h]
  exact Bool.false_ne_true

theorem pyUrlsplit_roundtrip (s n j : List Char) (h : UrlWF s n j) :
    pyUrlsplit (pyUrlunsplit s n j [] []) = ⟨s, n, j, [], []⟩ := by
  obtain ⟨hn, hsh, hsc, hsl, hno, hpo, hph⟩ := h
  rw [unsplit_shape s n j hn hph]
  have hcont1 : j.contains '#' = false := contains_eq_false_of (fun c hc => (hpo c hc).1)
  have hcont2 : j.contains '?' = false := contains_eq_false_of (fun c hc => (hpo c hc).2.1)
  have hsplitn : splitNetloc ('/' :: '/' :: (n ++ j)) = (n, j) :=
    splitNetloc_shape n j (fun c hc => (hno c hc).1) hph
  by_cases hs : s = []
  · subst hs
    rw [if_neg (by simp), List.nil_append]
    have hsan : pySanitize ('/' :: '/' :: (n ++ j)) = '/' :: '/' :: (n ++ j) := by
      apply pySanitize_eq_self
      · intro hd hhd
        simp only [List.head?_cons, Option.mem_def, Option.some.injEq] at hhd
        subst hhd
        decide
      · intro c hc
        simp only [List.mem_cons, List.mem_append] at hc
        rcases hc with rfl | rfl | hc | hc
        · decide
        · decide
        · exact (hno c hc).2
        · exact (hpo c hc).2.2
    show pyUrlsplit _ = _
    rw [pyUrlsplit, hsan, splitScheme_head_slash, hsplitn, splitFragment_clean hcont1,
      splitQuery_clean hcont2]
  · obtain ⟨c0, cs, rfl⟩ := List.exists_cons_of_ne_nil hs
    rw [if_pos hs]
    have hshape : ((c0 :: cs) ++ [':']) ++ ('/' :: '/' :: (n ++ j)) =
        (c0 :: cs) ++ ':' :: ('/' :: '/' :: (n ++ j)) := by
      simp [List.append_assoc]
    rw [hshape]
    have hsan : pySanitize ((c0 :: cs) ++ ':' :: ('/' :: '/' :: (n ++ j))) =
        (c0 :: cs) ++ ':' :: ('/' :: '/' :: (n ++ j)) := by
      apply pySanitize_eq_self
      · intro hd hhd
        simp only [List.cons_append, List.head?_cons, Option.mem_def, Option.some.injEq] at hhd
        subst hhd
        exact isSchemeChar_not_c0 _ (hsc c0 (by simp))
      · intro c hc
        simp only [List.cons_append, List.mem_cons, List.mem_append] at hc
        rcases hc with rfl | hc | rfl | rfl | rfl | hc | hc
        · exact isSchemeChar_not_unsafe _ (hsc c (by simp))
        · exact isSchemeChar_not_unsafe _ (hsc c (by simp [hc]))
        · decide
        · decide
        · decide
        · exact (hno c hc).2
        · exact (hpo c hc).2.2
    have hscheme : splitScheme ((c0 :: cs) ++ ':' :: ('/' :: '/' :: (n ++ j))) =
        (c0 :: cs, '/' :: '/' :: (n ++ j)) := by
      rw [splitScheme_scheme _ _ hs (hsh hs) hsc, hsl]
    rw [pyUrlsplit, hsan, hscheme, hsplitn, splitFragment_clean hcont1, splitQuery_clean hcont2]

/-! ### Params split lemmas -/

theorem dropWhile_semi_shape {tl b : List Char}
    (hb : tl.dropWhile (fun c => decide (c ≠ ';')) = b) (hne : b ≠ []) :
    ∃ bt, b = ';' :: bt := by
  obtain ⟨b0, bt, rfl⟩ := List.exists_cons_of_ne_nil hne
  have hfalse : (fun c => decide (c ≠ ';')) b0 = false := dropWhile_head_false hb
  simp only [decide_eq_false_iff_not, not_not] at hfalse
  exact ⟨bt, by rw [hfalse]⟩

theorem reverse_take_drop_while (j : List Char) :
    (j.reverse.dropWhile (fun c => decide (c ≠ '/'))).reverse ++
      (j.reverse.takeWhile (fun c => decide (c ≠ '/'))).reverse = j := by
  rw [← List.reverse_append, List.takeWhile_append_dropWhile, List.reverse_reverse]

/-- Full behaviour of `_splitparams` needed here: the first component is an
initial segment of the path; the discarded middle is exactly `';' :: params`
when params are nonempty, and is `[]` or a single trailing `';'` otherwise. -/
theorem pySplitParams_spec (j : List Char) :
    ∃ t, (pySplitParams j).1 ++ t = j ∧
      ((pySplitParams j).2 ≠ [] → t = ';' :: (pySplitParams j).2) ∧
      ((pySplitParams j).2 = [] → t = [] ∨ t = [';']) := by
  by_cases hslash : j.contains '/' = true
  · rw [pySplitParams, if_pos hslash]
    have hj : (j.reverse.dropWhile (fun c => decide (c ≠ '/'))).reverse ++
        (j.reverse.takeWhile (fun c => decide (c ≠ '/'))).reverse = j :=
      reverse_take_drop_while j
    by_cases hb : (j.reverse.takeWhile (fun c => decide (c ≠ '/'))).reverse.dropWhile
        (fun c => decide (c ≠ ';')) = []
    · rw [if_pos hb]
      exact ⟨[], by simp, fun h => absurd rfl h, fun _ => Or.inl rfl⟩
    · rw [if_neg hb]
      obtain ⟨bt, hbt⟩ := dropWhile_semi_shape rfl hb
      refine ⟨';' :: bt, ?_, ?_, ?_⟩
      · have htl : (j.reverse.takeWhile (fun c => decide (c ≠ '/'))).reverse.takeWhile
            (fun c => decide (c ≠ ';')) ++ ';' :: bt =
            (j.reverse.takeWhile (fun c => decide (c ≠ '/'))).reverse := by
          rw [← hbt, List.takeWhile_append_dropWhile]
        rw [List.append_assoc, htl, hj]
      · intro _
        rw [hbt]
        rfl
      · intro h2
        rw [hbt] at h2
        simp only [List.tail_cons] at h2
        subst h2
        exact Or.inr rfl
  · rw [pySplitParams, if_neg (by simpa using hslash)]
    by_cases hb : j.dropWhile (fun c => decide (c ≠ ';')) = []
    · rw [if_pos hb]
      exact ⟨[], by simp, fun h => absurd rfl h, fun _ => Or.inl rfl⟩
    · rw [if_neg hb]
      obtain ⟨bt, hbt⟩ := dropWhile_semi_shape rfl hb
      refine ⟨';' :: bt, ?_, ?_, ?_⟩
      · rw [← hbt, List.takeWhile_append_dropWhile]
      · intro _
        rw [hbt]
        rfl
      · intro h2
        rw [hbt] at h2
        simp only [List.tail_cons] at h2
        subst h2
        exact Or.inr rfl

/-- When the path does not end in `';'`, splitting off params and rejoining
them (as `geturl` does) is the identity on the path. -/
theorem pySplitParams_join {j : List Char} (hlast : j.getLast? ≠ some ';') :
    (if (pySplitParams j).2 ≠ [] then (pySplitParams j).1 ++ ';' :: (pySplitParams j).2
      else (pySplitParams j).1) = j := by
  obtain ⟨t, hjoin, hne, hnil⟩ := pySplitParams_spec j
  by_cases h2 : (pySplitParams j).2 = []
  · rw [if_neg (by simpa using h2)]
    rcases hnil h2 with rfl | rfl
    · simpa using hjoin
    · exact absurd (by rw [← hjoin]; simp) hlast
  · rw [if_pos h2, ← hne h2]
    exact hjoin

/-! ### Facts about the components produced by `pyUrlsplit` -/

theorem splitScheme_fst_spec (l : List Char) :
    (splitScheme l).1 = [] ∨
      ((splitScheme l).1.head?.any isAsciiAlpha = true ∧
        (∀ c ∈ (splitScheme l).1, isSchemeChar c = true) ∧
        (splitScheme l).1.map lowerChar = (splitScheme l).1) := by
  rw [splitScheme]
  split
  case isTrue hc =>
    obtain ⟨h1, h2, h3, h4⟩ := hc
    refine Or.inr ⟨?_, ?_, ?_⟩
    · obtain ⟨b, bs, hb⟩ := List.exists_cons_of_ne_nil h2
      rw [hb] at h3 ⊢
      simp only [List.map_cons, List.head?_cons, Option.any_some] at h3 ⊢
      exact isAsciiAlpha_lowerChar b h3
    · intro c hc2
      obtain ⟨d, hd, rfl⟩ := List.mem_map.mp hc2
      exact isSchemeChar_lowerChar d (List.all_eq_true.mp h4 d hd)
    · rw [List.map_map]
      exact List.map_congr_left (fun a _ => lowerChar_lowerChar a)
  case isFalse => exact Or.inl rfl

theorem splitScheme_snd_sub (l : List Char) : (splitScheme l).2 ⊆ l := by
  rw [splitScheme]
  split
  case isTrue =>
    intro x hx
    exact List.dropWhile_subset _ ((List.tail_sublist _).subset hx)
  case isFalse => exact fun x hx => hx

theorem splitNetloc_fst_chars (l : List Char) :
    ∀ c ∈ (splitNetloc l).1, isNetlocDelim c = false := by
  rw [splitNetloc]
  split
  case isTrue =>
    intro c hc
    have := List.mem_takeWhile_imp hc
    simpa using this
  case isFalse => intro c hc; simp at hc

theorem splitNetloc_fst_sub (l : List Char) : (splitNetloc l).1 ⊆ l := by
  rw [splitNetloc]
  split
  case isTrue =>
    intro x hx
    exact List.drop_subset _ _ (List.takeWhile_subset _ hx)
  case isFalse => intro x hx; simp at hx

theorem splitNetloc_snd_sub (l : List Char) : (splitNetloc l).2 ⊆ l := by
  rw [splitNetloc]
  split
  case isTrue =>
    intro x hx
    exact List.drop_subset _ _ (List.dropWhile_subset _ hx)
  case isFalse => exact fun x hx => hx

theorem splitNetloc_snd_shape (l : List Char) (h : (splitNetloc l).1 ≠ []) :
    (splitNetloc l).2 = [] ∨
      ∃ c t, (splitNetloc l).2 = c :: t ∧ isNetlocDelim c = true := by
  rw [splitNetloc] at h ⊢
  by_cases hcond : l.take 2 = ['/', '/']
  · rw [if_pos hcond]
    cases hd : (l.drop 2).dropWhile (fun c => !isNetlocDelim c) with
    | nil => exact Or.inl hd
    | cons c t =>
      have hf := dropWhile_head_false hd
      simp only [Bool.not_eq_false'] at hf
      exact Or.inr ⟨c, t, hd, hf⟩
  · rw [if_neg hcond] at h
    exact absurd rfl h

theorem splitFragment_fst_sub (l : List Char) : (splitFragment l).1 ⊆ l := by
  rw [splitFragment]
  split
  case isTrue => exact List.takeWhile_subset _
  case isFalse => exact fun x hx => hx

theorem splitFragment_fst_no_hash (l : List Char) : ∀ c ∈ (splitFragment l).1, c ≠ '#' := by
  rw [splitFragment]
  split
  case isTrue =>
    intro c hc
    have := List.mem_takeWhile_imp hc
    simpa using this
  case isFalse hc =>
    intro c hcm rfl_h
    subst rfl_h
    exact hc (List.elem_iff.mpr hcm)

theorem splitQuery_fst_sub (l : List Char) : (splitQuery l).1 ⊆ l := by
  rw [splitQuery]
  split
  case isTrue => exact List.takeWhile_subset _
  case isFalse => exact fun x hx => hx

theorem splitQuery_fst_no_q (l : List Char) : ∀ c ∈ (splitQuery l).1, c ≠ '?' := by
  rw [splitQuery]
  split
  case isTrue =>
    intro c hc
    have := List.mem_takeWhile_imp hc
    simpa using this
  case isFalse hc =>
    intro c hcm rfl_h
    subst rfl_h
    exact hc (List.elem_iff.mpr hcm)

theorem splitFragment_fst_head (l : List Char) :
    (splitFragment l).1 = [] ∨ (splitFragment l).1.head? = l.head? := by
  rw [splitFragment]
  split
  case isTrue =>
    cases l with
    | nil => exact Or.inl rfl
    | cons c t =>
      by_cases hc : c = '#'
      · subst hc
        rw [splitOnFirst]
        simp only
        rw [List.takeWhile_cons, if_neg (by simp)]
        exact Or.inl rfl
      · rw [splitOnFirst]
        simp only
        rw [List.takeWhile_cons, if_pos (by simp [hc])]
        exact Or.inr rfl
  case isFalse => exact Or.inr rfl

theorem splitQuery_fst_head (l : List Char) :
    (splitQuery l).1 = [] ∨ (splitQuery l).1.head? = l.head? := by
  rw [splitQuery]
  split
  case isTrue =>
    cases l with
    | nil => exact Or.inl rfl
    | cons c t =>
      by_cases hc : c = '?'
      · subst hc
        rw [splitOnFirst]
        simp only
        rw [List.takeWhile_cons, if_neg (by simp)]
        exact Or.inl rfl
      · rw [splitOnFirst]
        simp only
        rw [List.takeWhile_cons, if_pos (by simp [hc])]
        exact Or.inr rfl
  case isFalse => exact Or.inr rfl

theorem splitFragment_fst_hash (t : List Char) : (splitFragment ('#' :: t)).1 = [] := by
  rw [splitFragment, if_pos (List.elem_iff.mpr (List.mem_cons_self _ _))]
  rw [splitOnFirst]
  simp only
  rw [List.takeWhile_cons, if_neg (by simp)]

theorem splitQuery_fst_qm (t : List Char) : (splitQuery ('?' :: t)).1 = [] := by
  rw [splitQuery, if_pos (List.elem_iff.mpr (List.mem_cons_self _ _))]
  rw [splitOnFirst]
  simp only
  rw [List.takeWhile_cons, if_neg (by simp)]

theorem pyUrlparse_scheme (u : List Char) : (pyUrlparse u).scheme = (pyUrlsplit u).scheme := by
  rw [pyUrlparse]
  split <;> rfl

theorem pyUrlparse_netloc (u : List Char) : (pyUrlparse u).netloc = (pyUrlsplit u).netloc := by
  rw [pyUrlparse]
  split <;> rfl

/-- The `path;params` text that `geturl` re-serialises for a query- and
fragment-cleared parse result. -/
def parseJoined (u : List Char) : List Char :=
  if (pyUrlparse u).params ≠ [] then (pyUrlparse u).path ++ ';' :: (pyUrlparse u).params
  else (pyUrlparse u).path

theorem parseJoined_start (u : List Char) : ∃ t, parseJoined u ++ t = (pyUrlsplit u).path := by
  rw [parseJoined, pyUrlparse]
  split
  case isTrue hc =>
    obtain ⟨t, hjoin, hne, -⟩ := pySplitParams_spec (pyUrlsplit u).path
    by_cases h2 : (pySplitParams (pyUrlsplit u).path).2 = []
    · rw [if_neg (by simpa using h2)]
      exact ⟨t, hjoin⟩
    · rw [if_pos (by simpa using h2)]
      exact ⟨[], by rw [List.append_nil, ← hne h2]; exact hjoin⟩
  case isFalse =>
    rw [if_neg (by simp)]
    exact ⟨[], List.append_nil _⟩

theorem pyUrlsplit_path_shape (u : List Char) (hnet : (pyUrlsplit u).netloc ≠ []) :
    (pyUrlsplit u).path = [] ∨ (pyUrlsplit u).path.head? = some '/' := by
  have hshape := splitNetloc_snd_shape ((splitScheme (pySanitize u)).2) hnet
  rw [show (pyUrlsplit u).path =
    (splitQuery (splitFragment (splitNetloc ((splitScheme (pySanitize u)).2)).2).1).1 from rfl]
  rcases hshape with hnil | ⟨c, t, hct, hdelim⟩
  · rw [hnil]
    exact Or.inl rfl
  · rw [hct]
    have hc3 : c = '/' ∨ c = '?' ∨ c = '#' := by simpa [isNetlocDelim] using hdelim
    rcases hc3 with rfl | rfl | rfl
    · rcases splitFragment_fst_head ('/' :: t) with hf | hf
      · rw [hf]
        exact Or.inl rfl
      · rcases splitQuery_fst_head (splitFragment ('/' :: t)).1 with hq | hq
        · exact Or.inl hq
        · right
          rw [hq, hf]
          rfl
    · rcases splitFragment_fst_head ('?' :: t) with hf | hf
      · rw [hf]
        exact Or.inl rfl
      · left
        cases hX : (splitFragment ('?' :: t)).1 with
        | nil => rfl
        | cons c0 X =>
          rw [hX] at hf
          simp only [List.head?_cons, Option.some.injEq] at hf
          subst hf
          exact splitQuery_fst_qm X
    · left
      rw [splitFragment_fst_hash t]
      rfl

theorem mem_pySanitize_not_unsafe {u : List Char} {c : Char} (hc : c ∈ pySanitize u) :
    isUnsafeUrlByte c = false := by
  rw [pySanitize] at hc
  have := (List.mem_filter.mp hc).2
  simpa using this

theorem pyUrlsplit_path_sub (u : List Char) : (pyUrlsplit u).path ⊆ pySanitize u := by
  intro x hx
  exact splitScheme_snd_sub _
    (splitNetloc_snd_sub _
      (splitFragment_fst_sub _ (splitQuery_fst_sub _ hx)))

theorem parse_wf (u : List Char) (hnet : (pyUrlparse u).netloc ≠ []) :
    UrlWF (pyUrlparse u).scheme (pyUrlparse u).netloc (parseJoined u) := by
  rw [pyUrlparse_netloc] at hnet
  rw [pyUrlparse_scheme, pyUrlparse_netloc]
  obtain ⟨t, ht⟩ := parseJoined_start u
  have hmem_path : ∀ c ∈ parseJoined u, c ∈ (pyUrlsplit u).path := by
    intro c hc
    rw [← ht]
    exact List.mem_append_left _ hc
  refine ⟨hnet, ?_, ?_, ?_, ?_, ?_, ?_⟩
  · intro hs
    rcases splitScheme_fst_spec (pySanitize u) with h | ⟨h1, -, -⟩
    · exact absurd h hs
    · exact h1
  · intro c hc
    rcases splitScheme_fst_spec (pySanitize u) with h | ⟨-, h2, -⟩
    · rw [show (pyUrlsplit u).scheme = (splitScheme (pySanitize u)).1 from rfl, h] at hc
      simp at hc
    · exact h2 c hc
  · rcases splitScheme_fst_spec (pySanitize u) with h | ⟨-, -, h3⟩
    · rw [show (pyUrlsplit u).scheme = (splitScheme (pySanitize u)).1 from rfl, h]
      rfl
    · exact h3
  · intro c hc
    refine ⟨splitNetloc_fst_chars _ c hc, ?_⟩
    exact mem_pySanitize_not_unsafe (splitScheme_snd_sub _ (splitNetloc_fst_sub _ hc))
  · intro c hc
    have hcp := hmem_path c hc
    refine ⟨splitFragment_fst_no_hash _ c (splitQuery_fst_sub _ hcp), ?_, ?_⟩
    · exact splitQuery_fst_no_q _ c hcp
    · exact mem_pySanitize_not_unsafe (pyUrlsplit_path_sub u hcp)
  · rcases pyUrlsplit_path_shape u hnet with hp | hp
    · left
      have : parseJoined u ++ t = [] := by rw [ht, hp]
      exact (List.append_eq_nil.mp this).1
    · cases hj : parseJoined u with
      | nil => exact Or.inl rfl
      | cons c0 cs =>
        right
        rw [← ht, hj] at hp
        simpa using hp

/-! ### Stability of `strip_query_and_fragment` on re-serialised URLs -/

theorem pyUrlparse_unsplit_spec (s n j : List Char) (wf : UrlWF s n j)
    (hsemi : j.getLast? ≠ some ';') :
    ∃ p ps, pyUrlparse (pyUrlunsplit s n j [] []) = ⟨s, n, p, ps, [], []⟩ ∧
      (if ps ≠ [] then p ++ ';' :: ps else p) = j := by
  rw [pyUrlparse, pyUrlsplit_roundtrip s n j wf]
  split
  case isTrue hc => exact ⟨_, _, rfl, pySplitParams_join hsemi⟩
  case isFalse => exact ⟨j, [], rfl, by rw [if_neg (by simp)]⟩

theorem strip_of_unsplit (s n j : List Char) (wf : UrlWF s n j)
    (hslash : (pyUrlunsplit s n j [] []).getLast? ≠ some '/')
    (hsemi : j.getLast? ≠ some ';') :
    strip_query_and_fragment (pyUrlunsplit s n j [] []) = pyUrlunsplit s n j [] [] := by
  obtain ⟨p, ps, hparse, hjoin⟩ := pyUrlparse_unsplit_spec s n j wf hsemi
  unfold strip_query_and_fragment
  rw [hparse]
  have hnorm : pyGeturl (⟨s, n, p, ps, [], []⟩ : ParseResult) = pyUrlunsplit s n j [] [] := by
    unfold pyGeturl
    show pyUrlunsplit s n (if ps ≠ [] then p ++ ';' :: ps else p) [] [] = _
    rw [hjoin]
  show (if (pyGeturl (⟨s, n, p, ps, [], []⟩ : ParseResult)).getLast? = some '/' ∧
      "twinset.com".data.isSuffixOf n = true ∧
      3 < countChar '/' (pyGeturl (⟨s, n, p, ps, [], []⟩ : ParseResult)) then
    (pyGeturl (⟨s, n, p, ps, [], []⟩ : ParseResult)).dropLast
    else pyGeturl (⟨s, n, p, ps, [], []⟩ : ParseResult)) = pyUrlunsplit s n j [] []
  rw [hnorm]
  rw [if_neg]
  rintro ⟨h1, -, -⟩
  exact hslash h1

theorem unsplit_getLast (s n j : List Char) (hn : n ≠ []) (hph : j = [] ∨ j.head? = some '/')
    (hj : j ≠ []) : (pyUrlunsplit s n j [] []).getLast? = j.getLast? := by
  rw [unsplit_shape s n j hn hph]
  obtain ⟨c, hc⟩ : ∃ c, j.getLast? = some c := by
    cases hg : j.getLast? with
    | none => exact absurd (List.getLast?_eq_none_iff.mp hg) hj
    | some c => exact ⟨c, rfl⟩
  have h2 : ('/' :: '/' :: (n ++ j)).getLast? = some c := by
    rw [show '/' :: '/' :: (n ++ j) = (['/', '/'] ++ n) ++ j by simp, List.getLast?_append, hc]
    rfl
  rw [List.getLast?_append, h2, hc]
  rfl

theorem unsplit_getLast_nil (s n : List Char) (hn : n ≠ []) :
    (pyUrlunsplit s n [] [] []).getLast? = n.getLast? := by
  rw [unsplit_shape s n [] hn (Or.inl rfl)]
  obtain ⟨c, hc⟩ : ∃ c, n.getLast? = some c := by
    cases hg : n.getLast? with
    | none => exact absurd (List.getLast?_eq_none_iff.mp hg) hn
    | some c => exact ⟨c, rfl⟩
  have h2 : ('/' :: '/' :: (n ++ [])).getLast? = some c := by
    rw [show '/' :: '/' :: (n ++ []) = ['/', '/'] ++ n by simp, List.getLast?_append, hc]
    rfl
  rw [List.getLast?_append, h2, hc]
  rfl

theorem countChar_unsplit (s n j : List Char) (wf : UrlWF s n j) :
    countChar '/' (pyUrlunsplit s n j [] []) = 2 + countChar '/' j := by
  rw [unsplit_shape s n j wf.netloc_ne wf.path_head]
  unfold countChar
  rw [List.countP_append]
  have hpre : List.countP (fun d => decide (d = '/'))
      (if s ≠ [] then s ++ [':'] else []) = 0 := by
    split
    · rw [List.countP_eq_zero]
      intro a ha
      simp only [List.mem_append, List.mem_singleton] at ha
      rcases ha with ha | rfl
      · have hd := isSchemeChar_not_delim a (wf.scheme_chars a ha)
        simp only [isNetlocDelim, decide_eq_false_iff_not] at hd
        exact fun hcontra => hd (Or.inl (of_decide_eq_true hcontra))
      · simp
    · rfl
  have hn0 : List.countP (fun d => decide (d = '/')) n = 0 := by
    rw [List.countP_eq_zero]
    intro a ha
    have hd := (wf.netloc_ok a ha).1
    simp only [isNetlocDelim, decide_eq_false_iff_not] at hd
    exact fun hcontra => hd (Or.inl (of_decide_eq_true hcontra))
  rw [hpre, List.countP_cons, List.countP_cons, List.countP_append, hn0]
  have h1 : (decide (('/' : Char) = '/') = true) := by decide
  rw [if_pos h1]
  omega

theorem strip_shape (u : List Char) :
    strip_query_and_fragment u =
      (if (pyUrlunsplit (pyUrlparse u).scheme (pyUrlparse u).netloc (parseJoined u)
            [] []).getLast? = some '/' ∧
          "twinset.com".data.isSuffixOf (pyUrlparse u).netloc ∧
          3 < countChar '/' (pyUrlunsplit (pyUrlparse u).scheme (pyUrlparse u).netloc
            (parseJoined u) [] []) then
        (pyUrlunsplit (pyUrlparse u).scheme (pyUrlparse u).netloc (parseJoined u)
          [] []).dropLast
      else
        pyUrlunsplit (pyUrlparse u).scheme (pyUrlparse u).netloc (parseJoined u) [] []) := by
  rfl

/-- Idempotence of `strip_query_and_fragment` for URLs with an authority,
whose normalized form ends in neither `'/'` nor `';'`. -/
theorem strip_query_and_fragment_idem (u : List Char)
    (hnet : (pyUrlparse u).netloc ≠ [])
    (hslash : (strip_query_and_fragment u).getLast? ≠ some '/')
    (hsemi : (strip_query_and_fragment u).getLast? ≠ some ';') :
    strip_query_and_fragment (strip_query_and_fragment u) = strip_query_and_fragment u := by
  have wf := parse_wf u hnet
  set s := (pyUrlparse u).scheme with hs_def
  set n := (pyUrlparse u).netloc with hn_def
  set j := parseJoined u with hj_def
  rw [strip_shape u] at hslash hsemi ⊢
  by_cases hC : (pyUrlunsplit s n j [] []).getLast? = some '/' ∧
      "twinset.com".data.isSuffixOf n = true ∧ 3 < countChar '/' (pyUrlunsplit s n j [] [])
  · rw [if_pos hC] at hslash hsemi ⊢
    obtain ⟨h1, -, h3⟩ := hC
    have hj : j ≠ [] := by
      intro hjnil
      rw [hjnil, unsplit_getLast_nil s n wf.netloc_ne] at h1
      obtain ⟨ys, hys⟩ := List.getLast?_eq_some_iff.mp h1
      have hmem : '/' ∈ n := by
        rw [hys]
        exact List.mem_append_right _ (List.mem_singleton.mpr rfl)
      have := (wf.netloc_ok '/' hmem).1
      exact absurd this (by decide)
    have hlast : j.getLast? = some '/' := by
      rw [← unsplit_getLast s n j wf.netloc_ne wf.path_head hj]
      exact h1
    have hcount : 2 ≤ countChar '/' j := by
      rw [countChar_unsplit s n j wf] at h3
      omega
    have hlen : 2 ≤ j.length := le_trans hcount (List.countP_le_length _)
    have hjdne : j.dropLast ≠ [] := by
      have := List.length_dropLast j
      intro hx
      rw [hx] at this
      simp at this
      omega
    have hhead' : j.dropLast.head? = some '/' := by
      rw [length_ge_two_dropLast_head hlen]
      rcases wf.path_head with hx | hx
      · exact absurd hx hj
      · exact hx
    have wf' : UrlWF s n j.dropLast :=
      ⟨wf.netloc_ne, wf.scheme_head, wf.scheme_chars, wf.scheme_lower, wf.netloc_ok,
        fun c hc => wf.path_ok c ((List.dropLast_sublist j).subset hc), Or.inr hhead'⟩
    have hNdrop : (pyUrlunsplit s n j [] []).dropLast = pyUrlunsplit s n j.dropLast [] [] := by
      rw [unsplit_shape s n j wf.netloc_ne wf.path_head,
        unsplit_shape s n j.dropLast wf.netloc_ne (Or.inr hhead')]
      rw [show '/' :: '/' :: (n ++ j) = ('/' :: '/' :: n) ++ j by simp,
        show '/' :: '/' :: (n ++ j.dropLast) = ('/' :: '/' :: n) ++ j.dropLast by simp]
      rw [List.dropLast_append_of_ne_nil _ (by simp : ('/' :: '/' :: n) ++ j ≠ []),
        List.dropLast_append_of_ne_nil _ hj]
    rw [hNdrop] at hslash hsemi ⊢
    have hsemi' : j.dropLast.getLast? ≠ some ';' := by
      rw [← unsplit_getLast s n j.dropLast wf.netloc_ne (Or.inr hhead') hjdne]
      exact hsemi
    exact strip_of_unsplit s n j.dropLast wf' hslash hsemi'
  · rw [if_neg hC] at hslash hsemi ⊢
    have hsemi' : j.getLast? ≠ some ';' := by
      by_cases hj : j = []
      · rw [hj]
        simp
      · rw [← unsplit_getLast s n j wf.netloc_ne wf.path_head hj]
        exact hsemi
    exact strip_of_unsplit s n j wf hslash hsemi'

/-! ### `detect_block_page` (lines 86–97) -/

/-- Python `needle in hay` for strings. -/
def strContains (hay needle : List Char) : Bool := decide (needle <:+: hay)

/-- The fixed marker list of `detect_block_page`. -/
def blockMarkers : List (List Char) :=
  ["attention required!".data, "cf-challenge".data, "verify you are a human".data,
   "captcha".data, "access denied".data, "temporarily unavailable".data]

/-- `detect_block_page(page_html)`: lower-case the page, count how many
markers occur, and report a block on score ≥ 2 or on `cf-challenge` alone. -/
def detect_block_page (page_html : List Char) : Bool :=
  let lowered := lowerStr page_html
  let score := blockMarkers.countP (fun marker => strContains lowered marker)
  decide (2 ≤ score) || strContains lowered "cf-challenge".data

/-! ### `normalize_space` and `dedupe_keep_order` (lines 48–49, 68–78) -/

/-- One pass of `re.sub(r"\s+", " ", value)`: every maximal whitespace run
becomes a single space. -/
def collapseSpaces : List Char → List Char
  | [] => []
  | c :: rest =>
    let tail := collapseSpaces rest
    if isPySpace c then
      if tail.head? = some ' ' then tail else ' ' :: tail
    else c :: tail

/-- Python `str.strip()` (ASCII whitespace model). -/
def pyStrip (l : List Char) : List Char :=
  ((l.dropWhile isPySpace).reverse.dropWhile isPySpace).reverse

/-- `normalize_space(value)`: collapse whitespace runs then strip. -/
def normalize_space (l : List Char) : List Char := pyStrip (collapseSpaces l)

/-- Recursion of `dedupe_keep_order` carrying the `seen` set. -/
def dedupe_go : List (List Char) → List (List Char) → List (List Char)
  | [], _ => []
  | v :: rest, seen =>
    if v = [] then dedupe_go rest seen
    else if v ∈ seen then dedupe_go rest seen
    else v :: dedupe_go rest (v :: seen)

/-- `dedupe_keep_order(values)`: drop empty strings and duplicates, keeping
first occurrences in order. -/
def dedupe_keep_order (values : List (List Char)) : List (List Char) :=
  dedupe_go values []

/-! ### The durable store (`IndexDb`), tables as lists of records -/

/-- A row of the `url_queue` table. -/
structure QueueRow where
  site : List Char
  url : List Char
  url_type : List Char
  status : List Char
  depth : Nat
  discovered_from : Option (List Char)
  attempts : Nat
  last_http_status : Option Nat
  blocked : Bool
  last_error : Option (List Char)
  updated_at : Nat
  deriving Repr, DecidableEq

/-- A row of the `sitemaps` table. -/
structure SitemapRow where
  site : List Char
  url : List Char
  status : List Char
  discovered_from : Option (List Char)
  item_count : Option Nat
  attempts : Nat
  last_error : Option (List Char)
  updated_at : Nat
  deriving Repr, DecidableEq

/-- A row of the `products` table. -/
structure ProductRow where
  site : List Char
  url : List Char
  sku : Option (List Char)
  title : Option (List Char)
  category_path : Option (List Char)
  payload_json : List Char
  updated_at : Nat
  deriving Repr, DecidableEq

/-- A row of the `sku_index` table (`sku` is NOT NULL). -/
structure SkuRow where
  site : List Char
  sku : List Char
  url : List Char
  title : Option (List Char)
  category_path : Option (List Char)
  updated_at : Nat
  deriving Repr, DecidableEq

namespace IndexDb

/-- `enqueue_url`: `INSERT ... ON CONFLICT(site, url) DO NOTHING`; new rows
get status `'pending'`, zero attempts, no error, the current time. -/
def enqueue_url (now : Nat) (site url url_type : List Char) (depth : Nat)
    (discovered_from : Option (List Char)) (t : List QueueRow) : List QueueRow :=
  if t.any (fun r => decide (r.site = site ∧ r.url = url)) then t
  else
    t ++ [{ site := site, url := url, url_type := url_type, status := "pending".data,
            depth := depth, discovered_from := discovered_from, attempts := 0,
            last_http_status := none, blocked := false, last_error := none,
            updated_at := now }]

/-- `set_url_status`: update status, increment attempts, `COALESCE` the HTTP
status, set blocked/error, stamp the time — on the `(site, url)` row. -/
def set_url_status (now : Nat) (site url status : List Char) (http_status : Option Nat)
    (blocked : Bool) (error : Option (List Char)) (t : List QueueRow) : List QueueRow :=
  t.map fun r =>
    if r.site = site ∧ r.url = url then
      { r with
          status := status, attempts := r.attempts + 1,
          last_http_status := match http_status with
            | some c => some c
            | none => r.last_http_status,
          blocked := blocked, last_error := error, updated_at := now }
    else r

/-- `reset_errors`: bulk `error`/`blocked` → `pending` for one site, clearing
the error text and the blocked flag. -/
def reset_errors (now : Nat) (site : List Char) (t : List QueueRow) : List QueueRow :=
  t.map fun r =>
    if r.site = site ∧ (r.status = "error".data ∨ r.status = "blocked".data) then
      { r with
          status := "pending".data, last_error := none, blocked := false, updated_at := now }
    else r

/-- Strict lexicographic priority of `ORDER BY depth ASC, attempts ASC,
updated_at ASC`. -/
def queueLexLt (a b : QueueRow) : Prop :=
  a.depth < b.depth ∨ (a.depth = b.depth ∧
    (a.attempts < b.attempts ∨ (a.attempts = b.attempts ∧ a.updated_at < b.updated_at)))

instance (a b : QueueRow) : Decidable (queueLexLt a b) := by
  unfold queueLexLt
  infer_instance

/-- `WHERE` clause of `next_pending_url`. -/
def pendingCandidate (site : List Char) (allowed_types : List (List Char)) (max_depth : Nat)
    (r : QueueRow) : Prop :=
  r.site = site ∧ r.status = "pending".data ∧ r.url_type ∈ allowed_types ∧ r.depth ≤ max_depth

instance (site : List Char) (allowed_types : List (List Char)) (max_depth : Nat) (r : QueueRow) :
    Decidable (pendingCandidate site allowed_types max_depth r) := by
  unfold pendingCandidate
  infer_instance

/-- `LIMIT 1` after an `ORDER BY`: some minimal element of the list (SQLite
leaves the order of ties unspecified; this picks the first minimum). -/
def selectMinBy {α : Type} (lt : α → α → Bool) : List α → Option α
  | [] => none
  | r :: rest =>
    match selectMinBy lt rest with
    | none => some r
    | some b => if lt b r then some b else some r

/-- `next_pending_url(site, allowed_types, max_depth)`. -/
def next_pending_url (site : List Char) (allowed_types : List (List Char)) (max_depth : Nat)
    (t : List QueueRow) : Option QueueRow :=
  selectMinBy (fun a b => decide (queueLexLt a b))
    (t.filter (fun r => decide (pendingCandidate site allowed_types max_depth r)))

/-- The `INSERT INTO products ... ON CONFLICT(site, url) DO UPDATE` of
`upsert_product`: every payload field of the keyed row is replaced. -/
def upsertProductsRow (now : Nat) (site url : List Char)
    (sku title category_path : Option (List Char)) (payload_json : List Char)
    (products : List ProductRow) : List ProductRow :=
  if products.any (fun r => decide (r.site = site ∧ r.url = url)) then
    products.map fun r =>
      if r.site = site ∧ r.url = url then
        { r with
            sku := sku, title := title, category_path := category_path,
            payload_json := payload_json, updated_at := now }
      else r
  else
    products ++ [{ site := site, url := url, sku := sku, title := title,
                   category_path := category_path, payload_json := payload_json,
                   updated_at := now }]

/-- The `INSERT INTO sku_index ... ON CONFLICT(site, sku, url) DO UPDATE` of
`upsert_product`: only title, category path and timestamp are updated on
conflict; no row is ever removed. -/
def upsertSkuRow (now : Nat) (site s url : List Char)
    (title category_path : Option (List Char)) (sku_index : List SkuRow) : List SkuRow :=
  if sku_index.any (fun r => decide (r.site = site ∧ r.sku = s ∧ r.url = url)) then
    sku_index.map fun r =>
      if r.site = site ∧ r.sku = s ∧ r.url = url then
        { r with
            title := title, category_path := category_path, updated_at := now }
      else r
  else
    sku_index ++ [{ site := site, sku := s, url := url, title := title,
                    category_path := category_path, updated_at := now }]

/-- `upsert_product`: upsert into `products` on `(site, url)` replacing all
payload fields; when the SKU is truthy (`if sku:`), also upsert into
`sku_index`. -/
def upsert_product (now : Nat) (site url : List Char) (sku title category_path :
    Option (List Char)) (payload_json : List Char)
    (products : List ProductRow) (sku_index : List SkuRow) :
    List ProductRow × List SkuRow :=
  let products' := upsertProductsRow now site url sku title category_path payload_json products
  match sku with
  | some s =>
    if s ≠ [] then (products', upsertSkuRow now site s url title category_path sku_index)
    else (products', sku_index)
  | none => (products', sku_index)

/-- One `match_articles` output row of `articles_found.csv`. -/
structure FoundRow where
  article : List Char
  site : List Char
  url : List Char
  title : Option (List Char)
  category_path : Option (List Char)
  updated_at : Nat
  deriving Repr, DecidableEq

/-- The loop body of `match_articles`: on zero index hits append the article
to the missing report, otherwise append one found row per matching
`sku_index` row.  (The SQL `ORDER BY updated_at DESC` only permutes rows of
equal article; row membership and counts are unaffected, so rows keep table
order here.) -/
def matchStep (sku_index : List SkuRow) (acc : List FoundRow × List (List Char))
    (article : List Char) : List FoundRow × List (List Char) :=
  let rows := sku_index.filter (fun r => decide (r.sku = article))
  if rows = [] then (acc.1, acc.2 ++ [article])
  else (acc.1 ++ rows.map (fun r =>
    { article := article, site := r.site, url := r.url, title := r.title,
      category_path := r.category_path, updated_at := r.updated_at }), acc.2)

/-- The cleaned article list of `match_articles`:
`[normalize_space(a).upper() for a in articles if normalize_space(a)]`,
deduplicated keeping order. -/
def cleanArticles (articles : List (List Char)) : List (List Char) :=
  dedupe_keep_order (articles.filterMap fun a =>
    if normalize_space a = [] then none else some (upperStr (normalize_space a)))

/-- `match_articles(articles)`: clean and dedupe the input articles, then
fold `matchStep` over them. -/
def match_articles (articles : List (List Char)) (sku_index : List SkuRow) :
    List FoundRow × List (List Char) :=
  (cleanArticles articles).foldl (matchStep sku_index) ([], [])

end IndexDb

/-! ### URL classification (`SITE_CONFIGS`, `classify_url`,
`extract_twinset_com_sku_from_url`, lines 176–219, 701–726)

The four site regexes and the SKU pattern are concrete, so each is
translated into an equivalent decidable matcher; comments record the
regex reasoning (backtracking alternatives become explicit case splits). -/

/-- The two configured sites. -/
inductive Site where
  | ru
  | com
  deriving Repr, DecidableEq

/-- `SiteConfig.key`. -/
def site_key : Site → List Char
  | .ru => "twinset.ru".data
  | .com => "twinset.com".data

/-- `SiteConfig.base_url`. -/
def site_base_url : Site → List Char
  | .ru => "https://twinset.ru".data
  | .com => "https://www.twinset.com".data

/-- Case-insensitive literal at the start of `l` (IGNORECASE literal text). -/
def ciHasStart (lit l : List Char) : Bool :=
  decide (lowerStr (l.take lit.length) = lowerStr lit)

/-- Case-insensitive literal at the end of `l`. -/
def ciEndsWith (lit l : List Char) : Bool :=
  (lowerStr lit).isSuffixOf (lowerStr l)

/-- No newline, i.e. every character is matchable by `.` (without DOTALL). -/
def noNL (l : List Char) : Bool := l.all (fun c => decide (c ≠ '\n'))

/-- `\d+/?$`: a nonempty digit run, then an optional final `'/'`.  (`\d+` is
greedy and `'/'` is not a digit, so taking the maximal digit run is the only
possible decomposition.) -/
def digitsThenOptSlash (l : List Char) : Bool :=
  let ds := l.takeWhile isAsciiDigit
  let rest := l.drop ds.length
  decide (ds ≠ []) && (decide (rest = []) || decide (rest = ['/']))

/-- Stale-path pattern `^https://twinset\.ru/catalog/\d+/?$` (IGNORECASE). -/
def ruStaleRe (clean : List Char) : Bool :=
  ciHasStart "https://twinset.ru/catalog/".data clean &&
    digitsThenOptSlash (clean.drop "https://twinset.ru/catalog/".data.length)

/-- Tail `.+/\d+/?$` of the twinset.ru product pattern.  Working from the
right: an optional final `'/'`, then the maximal digit run (must be
nonempty), then a `'/'`, then a nonempty newline-free `.+` part; `\d+`
cannot contain `'/'`, so this is the only decomposition the regex can use. -/
def ruProductTail (rem : List Char) : Bool :=
  let r := rem.reverse
  let r1 := if r.head? = some '/' then r.tail else r
  let ds := r1.takeWhile isAsciiDigit
  let rest := r1.drop ds.length
  decide (ds ≠ []) && decide (rest.head? = some '/') && decide (rest.tail ≠ []) &&
    noNL rest.tail

/-- `^https://twinset\.ru/catalog/.+/\d+/?$` (IGNORECASE). -/
def ruProductRe (clean : List Char) : Bool :=
  ciHasStart "https://twinset.ru/catalog/".data clean &&
    ruProductTail (clean.drop "https://twinset.ru/catalog/".data.length)

/-- Tail `(?:/.*)?/?$` of the twinset.ru category pattern: empty, or a
`'/'` followed by a newline-free rest, or a `'/'`, a newline-free middle and
a final `'/'`. -/
def ruCategoryTail (rem : List Char) : Bool :=
  decide (rem = []) ||
    (decide (rem.head? = some '/') &&
      (noNL rem.tail || (decide (rem.getLast? = some '/') && noNL rem.tail.dropLast)))

/-- `^https://twinset\.ru/catalog(?:/.*)?/?$` (IGNORECASE). -/
def ruCategoryRe (clean : List Char) : Bool :=
  ciHasStart "https://twinset.ru/catalog".data clean &&
    ruCategoryTail (clean.drop "https://twinset.ru/catalog".data.length)

/-- The `(?:row|[a-z]{2}(?:-[a-z]{2})?)/` segment after the twinset.com
prefix; returns the remainder after the closing `'/'`.  The alternatives
never overlap: after `row` only `/` continues the match, and a two-letter
language code is followed by `/` directly or by `-xx/`, so the result is
deterministic despite regex backtracking. -/
def comSeg (rem : List Char) : Option (List Char) :=
  if ciHasStart "row/".data rem then some (rem.drop 4)
  else
    match rem with
    | a :: b :: rest =>
      if isAsciiAlpha a && isAsciiAlpha b then
        match rest with
        | '/' :: r2 => some r2
        | '-' :: c :: d :: '/' :: r2 =>
          if isAsciiAlpha c && isAsciiAlpha d then some r2 else none
        | _ => none
      else none
    | _ => none

/-- Tail `.+\.html$`: ends in `.html` (IGNORECASE) preceded by a nonempty
newline-free part; the suffix is end-anchored so the decomposition is
fixed. -/
def comProductTail (rem2 : List Char) : Bool :=
  ciEndsWith ".html".data rem2 && decide (6 ≤ rem2.length) &&
    noNL (rem2.take (rem2.length - 5))

/-- `^https://www\.twinset\.com/(?:row|[a-z]{2}(?:-[a-z]{2})?)/.+\.html$`. -/
def comProductRe (clean : List Char) : Bool :=
  ciHasStart "https://www.twinset.com/".data clean &&
    match comSeg (clean.drop "https://www.twinset.com/".data.length) with
    | some rem2 => comProductTail rem2
    | none => false

/-- Tail `(?:|women.*|man.*|child.*|sale.*|new.*|collection.*)$`. -/
def comCategoryTail (rem3 : List Char) : Bool :=
  decide (rem3 = []) ||
    ["women", "man", "child", "sale", "new", "collection"].any (fun kw =>
      ciHasStart kw.data rem3 && noNL (rem3.drop kw.data.length))

/-- `^https://www\.twinset\.com/(?:row|[a-z]{2}(?:-[a-z]{2})?)/(?:|women.*|...)$`. -/
def comCategoryRe (clean : List Char) : Bool :=
  ciHasStart "https://www.twinset.com/".data clean &&
    match comSeg (clean.drop "https://www.twinset.com/".data.length) with
    | some rem3 => comCategoryTail rem3
    | none => false

/-- `[0-9A-Z]{2,}(?:_[0-9A-Z]+)?` against the whole remainder: either no
`'_'` and at least two alphanumerics, or one `'_'` preceded by at least two
alphanumerics and followed by at least one, with nothing else (the
alphanumeric classes cannot contain `'_'`, so the first `'_'` fixes the
split). -/
def skuTailOk (rest' : List Char) : Bool :=
  match rest'.findIdx? (fun c => decide (c = '_')) with
  | none => decide (2 ≤ rest'.length) && rest'.all isAsciiAlnum
  | some k =>
      decide (2 ≤ k) && (rest'.take k).all isAsciiAlnum &&
        decide (rest'.drop (k + 1) ≠ []) && (rest'.drop (k + 1)).all isAsciiAlnum

/-- `[0-9]{3}[A-Z]{2,5}[0-9A-Z]{2,}(?:_[0-9A-Z]+)?` against the whole
remainder after a `'-'`: three digits, then some 2–5 letter run, then a
valid tail (the regex backtracks over the letter-run length, hence the
explicit disjunction over 2..5). -/
def skuCoreOk (t : List Char) : Bool :=
  match t with
  | d1 :: d2 :: d3 :: rest =>
    isAsciiDigit d1 && isAsciiDigit d2 && isAsciiDigit d3 &&
      [2, 3, 4, 5].any (fun l =>
        decide (l ≤ rest.length) && (rest.take l).all isAsciiAlpha && skuTailOk (rest.drop l))
  | _ => false

/-- Captured group 1: from after the `'-'` up to the optional `'_'` (or the
whole remainder when there is none). -/
def skuGroup (t : List Char) : List Char :=
  match t.findIdx? (fun c => decide (c = '_')) with
  | none => t
  | some k => t.take k

/-- Leftmost `'-'` whose remainder matches the SKU core (a `re.search` whose
pattern starts with `'-'` and is `$`-anchored scans start positions left to
right). -/
def findSkuDash : List Char → Option (List Char)
  | [] => none
  | c :: rest =>
    if c = '-' && skuCoreOk rest then some (upperStr (skuGroup rest))
    else findSkuDash rest

/-- `extract_twinset_com_sku_from_url(url)`:
`re.search(r"-([0-9]{3}[A-Z]{2,5}[0-9A-Z]{2,})(?:_[0-9A-Z]+)?\.html$", url,
re.IGNORECASE)`, returning group 1 upper-cased.  Python `$` also matches
just before one trailing newline, hence the initial trim. -/
def extract_twinset_com_sku_from_url (url : List Char) : Option (List Char) :=
  let u1 := if url.getLast? = some '\n' then url.dropLast else url
  if ciEndsWith ".html".data u1 then findSkuDash (u1.take (u1.length - 5))
  else none

/-- `classify_url(site_cfg, url)` (lines 701–715), with the per-site regexes
inlined per `SITE_CONFIGS`. -/
def classify_url (site : Site) (url : List Char) : List Char :=
  let clean := strip_query_and_fragment url
  match site with
  | .ru =>
    if ruStaleRe clean then "other".data
    else if ruProductRe clean then "product".data
    else if ruCategoryRe clean then "category".data
    else "other".data
  | .com =>
    if comProductRe clean then
      if (extract_twinset_com_sku_from_url clean).isSome then "product".data
      else "category".data
    else if comCategoryRe clean then "category".data
    else "other".data

/-! ### Sitemap crawl (`crawl_sitemaps` loop, lines 887–929)

The state bundles the two affected tables and a logical clock standing for
`now_iso()` (time is monotone; each write advances it).  Fetching plus
`parse_sitemap_locs` (network bytes, gzip, XML) is abstracted by the
`locsOf` oracle: `locsOf url = some locs` stands for a successful fetch
whose parsed and deduplicated `<loc>` list is `locs`, `none` for any raised
exception. -/

/-- Mutable crawl state: both tables plus the clock. -/
structure CrawlState where
  sitemaps : List SitemapRow
  url_queue : List QueueRow
  clock : Nat
  deriving Repr, DecidableEq

/-- `enqueue_sitemap`: `INSERT ... ON CONFLICT(site, url) DO NOTHING`. -/
def enqueue_sitemap (site url : List Char) (discovered_from : Option (List Char))
    (st : CrawlState) : CrawlState :=
  if st.sitemaps.any (fun r => decide (r.site = site ∧ r.url = url)) then st
  else
    { st with
        sitemaps := st.sitemaps ++ [{ site := site, url := url, status := "pending".data,
                                      discovered_from := discovered_from, item_count := none,
                                      attempts := 0, last_error := none,
                                      updated_at := st.clock }],
        clock := st.clock + 1 }

/-- `set_sitemap_status`: status update with attempt increment and
`COALESCE` on the item count. -/
def set_sitemap_status (site url status : List Char) (item_count : Option Nat)
    (error : Option (List Char)) (st : CrawlState) : CrawlState :=
  { st with
      sitemaps := st.sitemaps.map fun r =>
        if r.site = site ∧ r.url = url then
          { r with
              status := status,
              item_count := match item_count with
                | some c => some c
                | none => r.item_count,
              attempts := r.attempts + 1, last_error := error, updated_at := st.clock }
        else r,
      clock := st.clock + 1 }

/-- `ORDER BY attempts ASC, updated_at ASC` of `next_pending_sitemap`. -/
def sitemapLexLt (a b : SitemapRow) : Prop :=
  a.attempts < b.attempts ∨ (a.attempts = b.attempts ∧ a.updated_at < b.updated_at)

instance (a b : SitemapRow) : Decidable (sitemapLexLt a b) := by
  unfold sitemapLexLt
  infer_instance

/-- `next_pending_sitemap(site)`. -/
def next_pending_sitemap (site : List Char) (st : CrawlState) : Option (List Char) :=
  (IndexDb.selectMinBy (fun a b => decide (sitemapLexLt a b))
    (st.sitemaps.filter (fun r => decide (r.site = site ∧ r.status = "pending".data)))).map
    (fun r => r.url)

/-- `enqueue_url` lifted to the crawl state. -/
def enqueue_url_st (site url url_type : List Char) (depth : Nat)
    (discovered_from : Option (List Char)) (st : CrawlState) : CrawlState :=
  { st with
      url_queue := IndexDb.enqueue_url st.clock site url url_type depth discovered_from
        st.url_queue,
      clock := st.clock + 1 }

/-- Body of `for loc in locs` in `crawl_sitemaps` (lines 903–913): nested
sitemaps (by `.xml`/`.xml.gz` suffix of the lower-cased clean URL) are
enqueued as sitemap records; otherwise the URL is classified and enqueued at
depth 0 only when classified `product` or `category`. -/
def crawl_process_loc (site_cfg : Site) (next_url : List Char) (st : CrawlState)
    (loc : List Char) : CrawlState :=
  let clean := strip_query_and_fragment loc
  if ".xml".data.isSuffixOf (lowerStr clean) || ".xml.gz".data.isSuffixOf (lowerStr clean) then
    enqueue_sitemap (site_key site_cfg) clean (some next_url) st
  else
    let url_type := classify_url site_cfg clean
    if url_type = "product".data ∨ url_type = "category".data then
      enqueue_url_st (site_key site_cfg) clean url_type 0 (some next_url) st
    else st

/-- One iteration of the `while True` loop of `crawl_sitemaps`: take the
next pending sitemap (`none` = loop exit), fetch and parse it through the
oracle, process its locs and mark it `done`, or mark it `error` when the
fetch/parse raised. -/
def crawl_sitemaps_step (locsOf : List Char → Option (List (List Char))) (site_cfg : Site)
    (st : CrawlState) : Option CrawlState :=
  match next_pending_sitemap (site_key site_cfg) st with
  | none => none
  | some next_url =>
    match locsOf next_url with
    | some locs =>
      let st' := locs.foldl (crawl_process_loc site_cfg next_url) st
      some (set_sitemap_status (site_key site_cfg) next_url "done".data
        (some locs.length) none st')
    | none =>
      some (set_sitemap_status (site_key site_cfg) next_url "error".data none
        (some "fetch failed".data) st)

/-- The `crawl_sitemaps` loop run for at most `fuel` iterations (the loop
also stops as soon as no pending sitemap remains).  `fuel` plays the role of
`max_sitemaps` and of the finiteness of sitemaps. -/
def crawl_sitemaps_loop (locsOf : List Char → Option (List (List Char))) (site_cfg : Site) :
    Nat → CrawlState → CrawlState
  | 0, st => st
  | fuel + 1, st =>
    match crawl_sitemaps_step locsOf site_cfg st with
    | none => st
    | some st' => crawl_sitemaps_loop locsOf site_cfg fuel st'

/-! ### HTTP client (`SimpleHttpClient.get_bytes`, lines 270–300) and the
error dispatch of `crawl_urls` (lines 1007–1023)

One call's network behaviour is an oracle from attempt number to result.
Sleep durations `1.2 * attempt` seconds are recorded in deciseconds
(`12 * attempt`) to stay in `Nat`. -/

/-- What one fetch attempt does: success, an `HTTPError` with a status code,
or a network-level error (`URLError`/`TimeoutError`/`ConnectionError`). -/
inductive AttemptResult where
  | ok (body : List Char)
  | httpErr (code : Nat)
  | netErr
  deriving Repr, DecidableEq

/-- How `get_bytes` returns to its caller: the body, a raised `HTTPError`,
or the final `RuntimeError`. -/
inductive FetchOutcome where
  | ok (body : List Char)
  | httpError (code : Nat)
  | runtimeError
  deriving Repr, DecidableEq

/-- The `for attempt in range(1, retries + 1)` loop of `get_bytes`: HTTP
errors are re-raised on the last attempt and otherwise retried after a
backoff sleep, network errors break to a `RuntimeError` on the last attempt
and are otherwise retried after the same backoff sleep. -/
def get_bytes_go (responses : Nat → AttemptResult) (retries attempt : Nat)
    (sleeps : List Nat) : FetchOutcome × List Nat :=
  if retries < attempt then (.runtimeError, sleeps)
  else
    match responses attempt with
    | .ok body => (.ok body, sleeps)
    | .httpErr c =>
      if retries ≤ attempt then (.httpError c, sleeps)
      else get_bytes_go responses retries (attempt + 1) (sleeps ++ [12 * attempt])
    | .netErr =>
      if retries ≤ attempt then (.runtimeError, sleeps)
      else get_bytes_go responses retries (attempt + 1) (sleeps ++ [12 * attempt])
termination_by retries + 1 - attempt
decreasing_by
  · omega
  · omega

/-- `SimpleHttpClient.get_bytes(url)`: outcome plus the performed backoff
sleeps, in order. -/
def get_bytes (responses : Nat → AttemptResult) (retries : Nat) : FetchOutcome × List Nat :=
  get_bytes_go responses retries 1 []

/-- An exception caught by the per-item handlers of `crawl_urls`. -/
inductive FetchExc where
  | httpError (code : Nat) (msg : List Char)
  | other (msg : List Char)
  deriving Repr, DecidableEq

/-- The `except HTTPError` / `except Exception` dispatch of `crawl_urls`
(lines 1007–1023): 404/410 → `gone` with the code recorded, any other HTTP
code → `error` with the code recorded, anything else → `error` without a
code. -/
def crawl_urls_on_exc (now : Nat) (site url : List Char) (exc : FetchExc)
    (q : List QueueRow) : List QueueRow :=
  match exc with
  | .httpError code _ =>
    if code = 404 ∨ code = 410 then
      IndexDb.set_url_status now site url "gone".data (some code) false
        (some ("HTTP ".data ++ (Nat.repr code).data)) q
    else
      IndexDb.set_url_status now site url "error".data (some code) false
        (some ("HTTP error".data)) q
  | .other msg => IndexDb.set_url_status now site url "error".data none false (some msg) q

/-! ### Order and selection lemmas for `next_pending_url` -/

theorem queueLexLt_irrefl (a : QueueRow) : ¬ IndexDb.queueLexLt a a := by
  unfold IndexDb.queueLexLt
  omega

theorem queueLexLt_asymm {a b : QueueRow} (h : IndexDb.queueLexLt a b) :
    ¬ IndexDb.queueLexLt b a := by
  unfold IndexDb.queueLexLt at h ⊢
  omega

theorem queueLexLt_neg_trans {a b x : QueueRow} (h1 : ¬ IndexDb.queueLexLt b a)
    (h2 : IndexDb.queueLexLt x a) : IndexDb.queueLexLt x b := by
  unfold IndexDb.queueLexLt at h1 h2 ⊢
  omega

theorem selectMinBy_mem {α : Type} (lt : α → α → Bool) (l : List α) (r : α)
    (h : IndexDb.selectMinBy lt l = some r) : r ∈ l := by
  induction l with
  | nil => simp [IndexDb.selectMinBy] at h
  | cons a rest ih =>
    rw [IndexDb.selectMinBy] at h
    cases hm : IndexDb.selectMinBy lt rest with
    | none =>
      simp only [hm, Option.some.injEq] at h
      subst h
      exact List.mem_cons_self _ _
    | some b =>
      simp only [hm] at h
      by_cases hlt : lt b a = true
      · rw [if_pos hlt] at h
        simp only [Option.some.injEq] at h
        subst h
        exact List.mem_cons_of_mem _ (ih hm)
      · rw [if_neg hlt] at h
        simp only [Option.some.injEq] at h
        subst h
        exact List.mem_cons_self _ _

theorem selectMinBy_none {α : Type} (lt : α → α → Bool) (l : List α) :
    IndexDb.selectMinBy lt l = none ↔ l = [] := by
  induction l with
  | nil => simp [IndexDb.selectMinBy]
  | cons a rest ih =>
    rw [IndexDb.selectMinBy]
    constructor
    · intro h
      cases hm : IndexDb.selectMinBy lt rest with
      | none => simp only [hm] at h; cases h
      | some b =>
        simp only [hm] at h
        by_cases hlt : lt b a = true
        · rw [if_pos hlt] at h; cases h
        · rw [if_neg hlt] at h; cases h
    · intro h; cases h

theorem selectMinBy_queue_min (l : List QueueRow) (r : QueueRow)
    (h : IndexDb.selectMinBy (fun a b => decide (IndexDb.queueLexLt a b)) l = some r) :
    ∀ x ∈ l, ¬ IndexDb.queueLexLt x r := by
  induction l generalizing r with
  | nil => simp [IndexDb.selectMinBy] at h
  | cons a rest ih =>
    rw [IndexDb.selectMinBy] at h
    cases hm : IndexDb.selectMinBy (fun a b => decide (IndexDb.queueLexLt a b)) rest with
    | none =>
      simp only [hm, Option.some.injEq] at h
      subst h
      have hrest : rest = [] := (selectMinBy_none _ rest).mp hm
      subst hrest
      intro x hx
      rw [List.mem_singleton] at hx
      subst hx
      exact queueLexLt_irrefl _
    | some b =>
      simp only [hm] at h
      by_cases hlt : decide (IndexDb.queueLexLt b a) = true
      · rw [if_pos hlt] at h
        simp only [Option.some.injEq] at h
        subst h
        intro x hx
        rcases List.mem_cons.mp hx with rfl | hx
        · exact queueLexLt_asymm (of_decide_eq_true hlt)
        · exact ih _ hm x hx
      · rw [if_neg hlt] at h
        simp only [Option.some.injEq] at h
        subst h
        intro x hx
        rcases List.mem_cons.mp hx with rfl | hx
        · exact queueLexLt_irrefl x
        · intro hxa
          have hnb : ¬ IndexDb.queueLexLt b _ := fun hq => hlt (decide_eq_true hq)
          exact ih b hm x hx (queueLexLt_neg_trans hnb hxa)

/-! ### `dedupe_keep_order` and `match_articles` lemmas -/

theorem dedupe_go_spec (values : List (List Char)) :
    ∀ seen, (dedupe_go values seen).Nodup ∧ ∀ v ∈ dedupe_go values seen, v ∉ seen := by
  induction values with
  | nil => intro seen; exact ⟨List.nodup_nil, by simp [dedupe_go]⟩
  | cons v rest ih =>
    intro seen
    rw [dedupe_go]
    by_cases h1 : v = []
    · rw [if_pos h1]
      exact ih seen
    · rw [if_neg h1]
      by_cases h2 : v ∈ seen
      · rw [if_pos h2]
        exact ih seen
      · rw [if_neg h2]
        obtain ⟨hnd, hnotin⟩ := ih (v :: seen)
        refine ⟨List.nodup_cons.mpr ⟨fun hv => (hnotin v hv) (List.mem_cons_self _ _), hnd⟩, ?_⟩
        intro w hw
        rcases List.mem_cons.mp hw with rfl | hw
        · exact h2
        · exact fun hws => (hnotin w hw) (List.mem_cons_of_mem _ hws)

theorem dedupe_keep_order_nodup (values : List (List Char)) :
    (dedupe_keep_order values).Nodup :=
  (dedupe_go_spec values []).1

/-- One found row per matching `sku_index` row, as built by `matchStep`. -/
def foundRowsFor (sku_index : List SkuRow) (article : List Char) : List IndexDb.FoundRow :=
  (sku_index.filter (fun r => decide (r.sku = article))).map (fun r =>
    { article := article, site := r.site, url := r.url, title := r.title,
      category_path := r.category_path, updated_at := r.updated_at })

/-- The article fold of `match_articles`, characterised as a `flatMap` for
the found report and a `filter` for the missing report. -/
theorem match_fold_spec (sku_index : List SkuRow) (cleaned : List (List Char)) :
    ∀ acc : List IndexDb.FoundRow × List (List Char),
      cleaned.foldl (IndexDb.matchStep sku_index) acc =
        (acc.1 ++ cleaned.flatMap (foundRowsFor sku_index),
          acc.2 ++ cleaned.filter (fun article =>
            decide (sku_index.filter (fun r => decide (r.sku = article)) = []))) := by
  induction cleaned with
  | nil => intro acc; simp
  | cons a rest ih =>
    intro acc
    rw [List.foldl_cons]
    by_cases ha : sku_index.filter (fun r => decide (r.sku = a)) = []
    · have hstep : IndexDb.matchStep sku_index acc a = (acc.1, acc.2 ++ [a]) := by
        unfold IndexDb.matchStep
        rw [if_pos ha]
      rw [hstep, ih]
      rw [List.flatMap_cons, List.filter_cons]
      rw [if_pos (by simp [ha])]
      have hrows : foundRowsFor sku_index a = [] := by
        unfold foundRowsFor
        rw [ha]
        rfl
      rw [hrows]
      simp [List.append_assoc]
    · have hstep : IndexDb.matchStep sku_index acc a =
          (acc.1 ++ foundRowsFor sku_index a, acc.2) := by
        unfold IndexDb.matchStep foundRowsFor
        rw [if_neg ha]
      rw [hstep, ih]
      rw [List.flatMap_cons, List.filter_cons]
      rw [if_neg (by simp [ha])]
      simp [List.append_assoc]

/-! ### `upsert_product` lemmas -/

theorem upsert_product_fst (now : Nat) (site url : List Char)
    (sku title category_path : Option (List Char)) (payload_json : List Char)
    (products : List ProductRow) (sku_index : List SkuRow) :
    (IndexDb.upsert_product now site url sku title category_path payload_json
      products sku_index).1 =
      IndexDb.upsertProductsRow now site url sku title category_path payload_json products := by
  unfold IndexDb.upsert_product
  cases sku with
  | none => rfl
  | some s =>
    dsimp only
    by_cases hs : s ≠ []
    · rw [if_pos hs]
    · rw [if_neg hs]

theorem upsert_product_snd_none (now : Nat) (site url : List Char)
    (title category_path : Option (List Char)) (payload_json : List Char)
    (products : List ProductRow) (sku_index : List SkuRow) :
    (IndexDb.upsert_product now site url none title category_path payload_json
      products sku_index).2 = sku_index := rfl

theorem upsert_product_snd_empty (now : Nat) (site url : List Char)
    (title category_path : Option (List Char)) (payload_json : List Char)
    (products : List ProductRow) (sku_index : List SkuRow) :
    (IndexDb.upsert_product now site url (some []) title category_path payload_json
      products sku_index).2 = sku_index := by
  unfold IndexDb.upsert_product
  dsimp only
  rw [if_neg (by simp)]

theorem upsert_product_snd_some (now : Nat) (site url s : List Char) (hs : s ≠ [])
    (title category_path : Option (List Char)) (payload_json : List Char)
    (products : List ProductRow) (sku_index : List SkuRow) :
    (IndexDb.upsert_product now site url (some s) title category_path payload_json
      products sku_index).2 =
      IndexDb.upsertSkuRow now site s url title category_path sku_index := by
  unfold IndexDb.upsert_product
  dsimp only
  rw [if_pos hs]

theorem upsertSkuRow_preserves (now : Nat) (site s url : List Char)
    (title category_path : Option (List Char)) (sk : List SkuRow) :
    ∀ row ∈ sk, ∃ row' ∈ IndexDb.upsertSkuRow now site s url title category_path sk,
      row'.site = row.site ∧ row'.sku = row.sku ∧ row'.url = row.url := by
  intro row hrow
  unfold IndexDb.upsertSkuRow
  split
  case isTrue =>
    refine ⟨_, List.mem_map_of_mem _ hrow, ?_⟩
    by_cases hc : row.site = site ∧ row.sku = s ∧ row.url = url
    · rw [if_pos hc]
      exact ⟨rfl, rfl, rfl⟩
    · rw [if_neg hc]
      exact ⟨rfl, rfl, rfl⟩
  case isFalse =>
    exact ⟨row, List.mem_append_left _ hrow, rfl, rfl, rfl⟩

theorem upsertSkuRow_mem (now : Nat) (site s url : List Char)
    (title category_path : Option (List Char)) (sk : List SkuRow) :
    ∃ row ∈ IndexDb.upsertSkuRow now site s url title category_path sk,
      row.site = site ∧ row.sku = s ∧ row.url = url := by
  unfold IndexDb.upsertSkuRow
  split
  case isTrue h =>
    obtain ⟨r, hr, hc⟩ := List.any_eq_true.mp h
    have hc' := of_decide_eq_true hc
    refine ⟨_, List.mem_map_of_mem _ hr, ?_⟩
    rw [if_pos hc']
    exact ⟨hc'.1, hc'.2.1, hc'.2.2⟩
  case isFalse =>
    exact ⟨_, List.mem_append_right _ (List.mem_singleton.mpr rfl), rfl, rfl, rfl⟩

theorem upsertProductsRow_key (now : Nat) (site url : List Char)
    (sku title category_path : Option (List Char)) (payload_json : List Char)
    (products : List ProductRow)
    (hlen : (products.filter (fun r => decide (r.site = site ∧ r.url = url))).length ≤ 1) :
    ((IndexDb.upsertProductsRow now site url sku title category_path payload_json
        products).filter (fun r => decide (r.site = site ∧ r.url = url))).length = 1 ∧
    ∀ r ∈ (IndexDb.upsertProductsRow now site url sku title category_path payload_json
        products).filter (fun r => decide (r.site = site ∧ r.url = url)), r.sku = sku := by
  unfold IndexDb.upsertProductsRow
  split
  case isTrue h =>
    obtain ⟨r0, hr0, hc0⟩ := List.any_eq_true.mp h
    have hmain : ∀ ps : List ProductRow,
        ((ps.map (fun r =>
            if r.site = site ∧ r.url = url then
              { r with
                  sku := sku, title := title, category_path := category_path,
                  payload_json := payload_json, updated_at := now }
            else r)).filter (fun r => decide (r.site = site ∧ r.url = url))).length =
          (ps.filter (fun r => decide (r.site = site ∧ r.url = url))).length ∧
        ∀ r ∈ (ps.map (fun r =>
            if r.site = site ∧ r.url = url then
              { r with
                  sku := sku, title := title, category_path := category_path,
                  payload_json := payload_json, updated_at := now }
            else r)).filter (fun r => decide (r.site = site ∧ r.url = url)), r.sku = sku := by
      intro ps
      induction ps with
      | nil => exact ⟨rfl, by simp⟩
      | cons r ps ih =>
        rw [List.map_cons, List.filter_cons, List.filter_cons]
        by_cases hc : r.site = site ∧ r.url = url
        · rw [if_pos hc]
          rw [if_pos (show (decide (({ r with sku := sku, title := title, category_path := category_path, payload_json := payload_json, updated_at := now } : ProductRow).site = site ∧ ({ r with sku := sku, title := title, category_path := category_path, payload_json := payload_json, updated_at := now } : ProductRow).url = url)) = true from decide_eq_true hc)]
          rw [if_pos (show (decide (r.site = site ∧ r.url = url)) = true from decide_eq_true hc)]
          simp only [List.length_cons, ih.1, true_and]
          intro x hx
          rcases List.mem_cons.mp hx with rfl | hx
          · rfl
          · exact ih.2 x hx
        · rw [if_neg hc]
          rw [if_neg (show ¬(decide (r.site = site ∧ r.url = url)) = true from by simpa using hc)]
          rw [if_neg (show ¬(decide (r.site = site ∧ r.url = url)) = true from by simpa using hc)]
          exact ih
    refine ⟨?_, (hmain products).2⟩
    rw [(hmain products).1]
    have hge : 1 ≤ (products.filter (fun r => decide (r.site = site ∧ r.url = url))).length := by
      have : r0 ∈ products.filter (fun r => decide (r.site = site ∧ r.url = url)) :=
        List.mem_filter.mpr ⟨hr0, hc0⟩
      exact List.length_pos.mpr (fun hnil => by rw [hnil] at this; cases this)
    omega
  case isFalse h =>
    have hnil : products.filter (fun r => decide (r.site = site ∧ r.url = url)) = [] := by
      rw [List.filter_eq_nil_iff]
      intro r hr
      intro hcontra
      exact h (List.any_eq_true.mpr ⟨r, hr, hcontra⟩)
    rw [List.filter_append, hnil, List.filter_cons]
    rw [if_pos (show (decide (({ site := site, url := url, sku := sku, title := title, category_path := category_path, payload_json := payload_json, updated_at := now } : ProductRow).site = site ∧ ({ site := site, url := url, sku := sku, title := title, category_path := category_path, payload_json := payload_json, updated_at := now } : ProductRow).url = url)) = true from decide_eq_true (And.intro rfl rfl))]
    refine ⟨rfl, ?_⟩
    intro r hr
    simp only [List.nil_append, List.filter_nil] at hr
    rcases List.mem_cons.mp hr with rfl | hx
    · rfl
    · simp at hx

/-! ### `get_bytes` on repeated HTTP errors -/

theorem get_bytes_go_http (responses : Nat → AttemptResult) (code : Nat)
    (hresp : ∀ a, responses a = .httpErr code) :
    ∀ d attempt sleeps, get_bytes_go responses (attempt + d) attempt sleeps =
      (.httpError code, sleeps ++ (List.range d).map (fun k => 12 * (attempt + k))) := by
  intro d
  induction d with
  | zero =>
    intro attempt sleeps
    rw [get_bytes_go, if_neg (by omega)]
    simp only [hresp]
    rw [if_pos (by omega)]
    simp
  | succ d ih =>
    intro attempt sleeps
    rw [get_bytes_go, if_neg (by omega)]
    simp only [hresp]
    rw [if_neg (by omega)]
    rw [show attempt + (d + 1) = attempt + 1 + d by omega]
    rw [ih (attempt + 1) (sleeps ++ [12 * attempt])]
    have harg : sleeps ++ [12 * attempt] ++
        (List.range d).map (fun k => 12 * (attempt + 1 + k)) =
        sleeps ++ (List.range (d + 1)).map (fun k => 12 * (attempt + k)) := by
      rw [List.range_succ_eq_map, List.map_cons, List.map_map, List.append_assoc,
        List.singleton_append]
      congr 2
      apply List.map_congr_left
      intro k _
      simp only [Function.comp_apply]
      omega
    rw [harg]

theorem get_bytes_http (responses : Nat → AttemptResult) (code retries : Nat)
    (h1 : 1 ≤ retries) (hresp : ∀ a, responses a = .httpErr code) :
    get_bytes responses retries =
      (.httpError code, (List.range (retries - 1)).map (fun k => 12 * (1 + k))) := by
  unfold get_bytes
  have h := get_bytes_go_http responses code hresp (retries - 1) 1 []
  rw [show 1 + (retries - 1) = retries by omega] at h
  simpa using h

/-! ### Row-level views of `set_url_status` and `reset_errors` -/

theorem set_url_status_get? (now : Nat) (site url status : List Char)
    (http_status : Option Nat) (blocked : Bool) (error : Option (List Char))
    (t : List QueueRow) (i : Nat) (r : QueueRow) (h : t.get? i = some r) :
    ∃ r', (IndexDb.set_url_status now site url status http_status blocked error t).get? i =
        some r' ∧
      ((r.site = site ∧ r.url = url) →
        r' = { r with
                status := status, attempts := r.attempts + 1,
                last_http_status := match http_status with
                  | some c => some c
                  | none => r.last_http_status,
                blocked := blocked, last_error := error, updated_at := now }) ∧
      (¬(r.site = site ∧ r.url = url) → r' = r) := by
  unfold IndexDb.set_url_status
  rw [List.get?_map, h]
  by_cases hc : r.site = site ∧ r.url = url
  · refine ⟨_, rfl, fun _ => ?_, fun hn => absurd hc hn⟩
    simp only [Option.map_some]
    rw [if_pos hc]
  · refine ⟨_, rfl, fun hy => absurd hy hc, fun _ => ?_⟩
    simp only [Option.map_some]
    rw [if_neg hc]

theorem reset_errors_get? (now : Nat) (site : List Char) (t : List QueueRow)
    (i : Nat) (r : QueueRow) (h : t.get? i = some r) :
    ∃ r', (IndexDb.reset_errors now site t).get? i = some r' ∧
      ((r.site = site ∧ (r.status = "error".data ∨ r.status = "blocked".data)) →
        r' = { r with
                status := "pending".data, last_error := none, blocked := false,
                updated_at := now }) ∧
      (¬(r.site = site ∧ (r.status = "error".data ∨ r.status = "blocked".data)) → r' = r) := by
  unfold IndexDb.reset_errors
  rw [List.get?_map, h]
  by_cases hc : r.site = site ∧ (r.status = "error".data ∨ r.status = "blocked".data)
  · refine ⟨_, rfl, fun _ => ?_, fun hn => absurd hc hn⟩
    simp only [Option.map_some]
    rw [if_pos hc]
  · refine ⟨_, rfl, fun hy => absurd hy hc, fun _ => ?_⟩
    simp only [Option.map_some]
    rw [if_neg hc]

/-! ### `enqueue_url` lemmas -/

theorem enqueue_url_noop (now : Nat) (site url url_type : List Char) (depth : Nat)
    (df : Option (List Char)) (t : List QueueRow)
    (hex : ∃ r ∈ t, r.site = site ∧ r.url = url) :
    IndexDb.enqueue_url now site url url_type depth df t = t := by
  obtain ⟨r, hr, h1, h2⟩ := hex
  unfold IndexDb.enqueue_url
  rw [if_pos (List.any_eq_true.mpr ⟨r, hr, decide_eq_true ⟨h1, h2⟩⟩)]

theorem enqueue_url_key_mem (now : Nat) (site url url_type : List Char) (depth : Nat)
    (df : Option (List Char)) (t : List QueueRow) :
    ∃ r ∈ IndexDb.enqueue_url now site url url_type depth df t,
      r.site = site ∧ r.url = url := by
  unfold IndexDb.enqueue_url
  split
  case isTrue h =>
    obtain ⟨r, hr, hc⟩ := List.any_eq_true.mp h
    exact ⟨r, hr, of_decide_eq_true hc⟩
  case isFalse h =>
    exact ⟨_, List.mem_append_right _ (List.mem_singleton.mpr rfl), rfl, rfl⟩

/-! ## The claims -/

/-- C3 (confirmed): `detect_block_page` reports a block exactly when at least
two of the six fixed markers occur case-insensitively in the page or
`cf-challenge` occurs at all; a page with both `captcha` and `access denied`
is blocked, a page with only `captcha` is not, and a page with `cf-challenge`
alone is blocked. -/
theorem claim_C3 (page_html : List Char) :
    (detect_block_page page_html = true ↔
      2 ≤ blockMarkers.countP (fun marker => strContains (lowerStr page_html) marker) ∨
        "cf-challenge".data <:+: lowerStr page_html) ∧
    detect_block_page "Robot check: CAPTCHA required. Access Denied.".data = true ∧
    detect_block_page "please solve this captcha to continue".data = false ∧
    detect_block_page "<div id=cf-challenge-running></div>".data = true := by
  refine ⟨?_, by decide, by decide, by decide⟩
  unfold detect_block_page
  simp only [Bool.or_eq_true, decide_eq_true_iff]
  constructor
  · intro h
    rcases h with h | h
    · exact Or.inl h
    · exact Or.inr (of_decide_eq_true h)
  · intro h
    rcases h with h | h
    · exact Or.inl h
    · exact Or.inr (decide_eq_true h)

/-- A `url_queue` row whose key is re-enqueued in the C4 witness: its
advanced status, depth, attempt count and HTTP status must all survive. -/
def c4Row : QueueRow :=
  { site := "twinset.ru".data, url := "https://twinset.ru/catalog/knitwear/1".data,
    url_type := "category".data, status := "done".data, depth := 2,
    discovered_from := none, attempts := 3, last_http_status := some 200,
    blocked := false, last_error := none, updated_at := 4 }

/-- C4 (confirmed): `enqueue_url` of a `(site, url)` key already present in
`url_queue` returns the table unchanged — no second row, no field reset —
and enqueuing the same key twice in a row equals enqueuing it once, on any
table. -/
theorem claim_C4 (now now2 : Nat) (site url url_type url_type2 : List Char)
    (depth depth2 : Nat) (df df2 : Option (List Char)) (t : List QueueRow)
    (r : QueueRow) (hr : r ∈ t) (hkey : r.site = site ∧ r.url = url) :
    IndexDb.enqueue_url now site url url_type depth df t = t ∧
    ∀ t2 : List QueueRow,
      IndexDb.enqueue_url now2 site url url_type2 depth2 df2
          (IndexDb.enqueue_url now site url url_type depth df t2) =
        IndexDb.enqueue_url now site url url_type depth df t2 := by
  refine ⟨enqueue_url_noop now site url url_type depth df t ⟨r, hr, hkey⟩, ?_⟩
  intro t2
  exact enqueue_url_noop now2 site url url_type2 depth2 df2 _
    (enqueue_url_key_mem now site url url_type depth df t2)

/-- C4 witness: re-enqueuing the key of `c4Row` (status `done`, depth 2,
3 attempts) leaves the one-row table exactly as it was. -/
theorem claim_C4_witness :
    IndexDb.enqueue_url 9 "twinset.ru".data "https://twinset.ru/catalog/knitwear/1".data
        "product".data 0 none [c4Row] = [c4Row] ∧
    ∀ t2 : List QueueRow,
      IndexDb.enqueue_url 10 "twinset.ru".data "https://twinset.ru/catalog/knitwear/1".data
          "category".data 1 none
          (IndexDb.enqueue_url 9 "twinset.ru".data
            "https://twinset.ru/catalog/knitwear/1".data "product".data 0 none t2) =
        IndexDb.enqueue_url 9 "twinset.ru".data
          "https://twinset.ru/catalog/knitwear/1".data "product".data 0 none t2 :=
  claim_C4 9 10 "twinset.ru".data "https://twinset.ru/catalog/knitwear/1".data
    "product".data "category".data 0 1 none none [c4Row] c4Row
    (List.mem_singleton.mpr rfl) ⟨rfl, rfl⟩

/-- C5 (confirmed): `reset_errors site` rewrites exactly the rows of `site`
whose status is `error` or `blocked` — those become `pending` with the
blocked flag and error text cleared and every other field kept — and leaves
every other row unchanged (and the table the same length). -/
theorem claim_C5 (now : Nat) (site : List Char) (t : List QueueRow) (i : Nat)
    (r : QueueRow) (hr : t.get? i = some r) :
    (IndexDb.reset_errors now site t).length = t.length ∧
    ∃ r', (IndexDb.reset_errors now site t).get? i = some r' ∧
      ((r.site = site ∧ (r.status = "error".data ∨ r.status = "blocked".data)) →
        r'.status = "pending".data ∧ r'.blocked = false ∧ r'.last_error = none ∧
        r'.site = r.site ∧ r'.url = r.url ∧ r'.url_type = r.url_type ∧
        r'.depth = r.depth ∧ r'.attempts = r.attempts ∧
        r'.last_http_status = r.last_http_status ∧
        r'.discovered_from = r.discovered_from) ∧
      (¬(r.site = site ∧ (r.status = "error".data ∨ r.status = "blocked".data)) →
        r' = r) := by
  refine ⟨by simp [IndexDb.reset_errors], ?_⟩
  obtain ⟨r', hget, hpos, hneg⟩ := reset_errors_get? now site t i r hr
  refine ⟨r', hget, fun h => ?_, hneg⟩
  rw [hpos h]
  exact ⟨rfl, rfl, rfl, rfl, rfl, rfl, rfl, rfl, rfl, rfl⟩

/-- An errored `url_queue` row for the C5 witness. -/
def c5Row : QueueRow :=
  { site := "twinset.ru".data, url := "https://twinset.ru/catalog/coats/2".data,
    url_type := "product".data, status := "error".data, depth := 1,
    discovered_from := some "https://twinset.ru/sitemap.xml".data, attempts := 2,
    last_http_status := some 500, blocked := false,
    last_error := some "HTTP error".data, updated_at := 3 }

/-- C5 witness: resetting the site of the errored row `c5Row` makes it
`pending`, clears the error and keeps its other fields. -/
theorem claim_C5_witness :
    (IndexDb.reset_errors 7 "twinset.ru".data [c5Row]).length = [c5Row].length ∧
    ∃ r', (IndexDb.reset_errors 7 "twinset.ru".data [c5Row]).get? 0 = some r' ∧
      ((c5Row.site = "twinset.ru".data ∧
          (c5Row.status = "error".data ∨ c5Row.status = "blocked".data)) →
        r'.status = "pending".data ∧ r'.blocked = false ∧ r'.last_error = none ∧
        r'.site = c5Row.site ∧ r'.url = c5Row.url ∧ r'.url_type = c5Row.url_type ∧
        r'.depth = c5Row.depth ∧ r'.attempts = c5Row.attempts ∧
        r'.last_http_status = c5Row.last_http_status ∧
        r'.discovered_from = c5Row.discovered_from) ∧
      (¬(c5Row.site = "twinset.ru".data ∧
          (c5Row.status = "error".data ∨ c5Row.status = "blocked".data)) →
        r' = c5Row) :=
  claim_C5 7 "twinset.ru".data [c5Row] 0 c5Row rfl

/-- C6 (confirmed): a row returned by `next_pending_url` is a `pending` row
of the requested site with an allowed type and depth at most `max_depth`, and
no other such candidate row is strictly smaller in the `ORDER BY` order
(depth, then attempts, then updated_at, all ascending); when no candidate
row exists the result is `none`. -/
theorem claim_C6 (site : List Char) (allowed_types : List (List Char)) (max_depth : Nat)
    (t : List QueueRow) :
    (∀ r, IndexDb.next_pending_url site allowed_types max_depth t = some r →
      r ∈ t ∧ r.site = site ∧ r.status = "pending".data ∧
        r.url_type ∈ allowed_types ∧ r.depth ≤ max_depth ∧
        ∀ x ∈ t, IndexDb.pendingCandidate site allowed_types max_depth x →
          ¬ IndexDb.queueLexLt x r) ∧
    (IndexDb.next_pending_url site allowed_types max_depth t = none →
      ∀ x ∈ t, ¬ IndexDb.pendingCandidate site allowed_types max_depth x) := by
  constructor
  · intro r h
    unfold IndexDb.next_pending_url at h
    have hmem := selectMinBy_mem _ _ _ h
    have hcand := of_decide_eq_true (List.mem_filter.mp hmem).2
    obtain ⟨h1, h2, h3, h4⟩ := hcand
    refine ⟨(List.mem_filter.mp hmem).1, h1, h2, h3, h4, ?_⟩
    intro x hx hcx
    exact selectMinBy_queue_min _ r h x (List.mem_filter.mpr ⟨hx, decide_eq_true hcx⟩)
  · intro h x hx hcx
    unfold IndexDb.next_pending_url at h
    have hnil := (selectMinBy_none _ _).mp h
    have hmem : x ∈ t.filter
        (fun r => decide (IndexDb.pendingCandidate site allowed_types max_depth r)) :=
      List.mem_filter.mpr ⟨hx, decide_eq_true hcx⟩
    rw [hnil] at hmem
    cases hmem

/-- The two-URL SKU index of the C8 concrete scenario: one SKU `ABC123`
indexed under two URLs (two colour variants). -/
def c8Index : List SkuRow :=
  [{ site := "twinset.com".data, sku := "ABC123".data,
     url := "https://www.twinset.com/en/a-ABC123.html".data, title := none,
     category_path := none, updated_at := 1 },
   { site := "twinset.com".data, sku := "ABC123".data,
     url := "https://www.twinset.com/en/b-ABC123.html".data, title := some "B".data,
     category_path := none, updated_at := 2 }]

/-- C8 (confirmed): `match_articles` cleans the input (normalize, uppercase,
drop empties, dedupe — the cleaned list has no duplicates), then emits one
found row per `sku_index` row whose `sku` equals the cleaned article and one
missing entry exactly for the cleaned articles with zero index hits; the
lower-case input `abc123` against an index holding `ABC123` under two URLs
yields two found rows and no missing rows. -/
theorem claim_C8 (articles : List (List Char)) (sku_index : List SkuRow) :
    (IndexDb.match_articles articles sku_index).1 =
      (IndexDb.cleanArticles articles).flatMap (foundRowsFor sku_index) ∧
    (IndexDb.match_articles articles sku_index).2 =
      (IndexDb.cleanArticles articles).filter (fun article =>
        decide (sku_index.filter (fun r => decide (r.sku = article)) = [])) ∧
    (IndexDb.cleanArticles articles).Nodup ∧
    (IndexDb.match_articles ["abc123".data] c8Index).1.length = 2 ∧
    (IndexDb.match_articles ["abc123".data] c8Index).2 = [] := by
  refine ⟨?_, ?_, dedupe_keep_order_nodup _, by decide, by decide⟩
  · unfold IndexDb.match_articles
    rw [match_fold_spec]
    simp
  · unfold IndexDb.match_articles
    rw [match_fold_spec]
    simp

/-- C10 (confirmed): `upsert_product` leaves `sku_index` untouched when the
parsed SKU is null or empty; when it writes, every pre-existing
`(site, sku, url)` key survives (no row is ever deleted) and the new key is
present — so an old SKU for the same URL remains alongside the new one —
while the `products` row for `(site, url)` is unique and carries only the
new SKU. -/
theorem claim_C10 (now : Nat) (site url : List Char)
    (sku title category_path : Option (List Char)) (payload_json : List Char)
    (products : List ProductRow) (sku_index : List SkuRow)
    (hlen : (products.filter (fun r => decide (r.site = site ∧ r.url = url))).length ≤ 1) :
    ((sku = none ∨ sku = some []) →
      (IndexDb.upsert_product now site url sku title category_path payload_json
        products sku_index).2 = sku_index) ∧
    (∀ row ∈ sku_index,
      ∃ row' ∈ (IndexDb.upsert_product now site url sku title category_path payload_json
          products sku_index).2,
        row'.site = row.site ∧ row'.sku = row.sku ∧ row'.url = row.url) ∧
    (∀ s, sku = some s → s ≠ [] →
      ∃ row ∈ (IndexDb.upsert_product now site url sku title category_path payload_json
          products sku_index).2,
        row.site = site ∧ row.sku = s ∧ row.url = url) ∧
    ((IndexDb.upsert_product now site url sku title category_path payload_json
        products sku_index).1.filter
          (fun r => decide (r.site = site ∧ r.url = url))).length = 1 ∧
    (∀ p ∈ (IndexDb.upsert_product now site url sku title category_path payload_json
        products sku_index).1.filter
          (fun r => decide (r.site = site ∧ r.url = url)), p.sku = sku) := by
  refine ⟨?_, ?_, ?_, ?_, ?_⟩
  · intro h
    rcases h with h | h
    · rw [h]
      exact upsert_product_snd_none now site url title category_path payload_json
        products sku_index
    · rw [h]
      exact upsert_product_snd_empty now site url title category_path payload_json
        products sku_index
  · intro row hrow
    cases sku with
    | none =>
      rw [upsert_product_snd_none]
      exact ⟨row, hrow, rfl, rfl, rfl⟩
    | some s =>
      by_cases hs : s = []
      · subst hs
        rw [upsert_product_snd_empty]
        exact ⟨row, hrow, rfl, rfl, rfl⟩
      · rw [upsert_product_snd_some now site url s hs]
        exact upsertSkuRow_preserves now site s url title category_path sku_index row hrow
  · intro s hsku hs
    subst hsku
    rw [upsert_product_snd_some now site url s hs]
    exact upsertSkuRow_mem now site s url title category_path sku_index
  · rw [upsert_product_fst]
    exact (upsertProductsRow_key now site url sku title category_path payload_json
      products hlen).1
  · rw [upsert_product_fst]
    exact (upsertProductsRow_key now site url sku title category_path payload_json
      products hlen).2

/-- The pre-existing tables of the C10 witness: one products row and one
sku_index row for the URL, both carrying the old SKU `OLD11`. -/
def c10Products : List ProductRow :=
  [{ site := "twinset.com".data, url := "https://www.twinset.com/en/p-1.html".data,
     sku := some "OLD11".data, title := none, category_path := none,
     payload_json := "{}".data, updated_at := 1 }]

/-- The sku_index of the C10 witness. -/
def c10SkuIndex : List SkuRow :=
  [{ site := "twinset.com".data, sku := "OLD11".data,
     url := "https://www.twinset.com/en/p-1.html".data, title := none,
     category_path := none, updated_at := 1 }]

/-- C10 witness: re-upserting the URL of `c10Products` with the new SKU
`NEW22` keeps the old `OLD11` sku_index row, adds the `NEW22` one, and the
unique products row now carries only `NEW22`. -/
theorem claim_C10_witness :
    ((some "NEW22".data = none ∨ some "NEW22".data = some []) →
      (IndexDb.upsert_product 5 "twinset.com".data
        "https://www.twinset.com/en/p-1.html".data (some "NEW22".data) none none
        "{}".data c10Products c10SkuIndex).2 = c10SkuIndex) ∧
    (∀ row ∈ c10SkuIndex,
      ∃ row' ∈ (IndexDb.upsert_product 5 "twinset.com".data
          "https://www.twinset.com/en/p-1.html".data (some "NEW22".data) none none
          "{}".data c10Products c10SkuIndex).2,
        row'.site = row.site ∧ row'.sku = row.sku ∧ row'.url = row.url) ∧
    (∀ s, some "NEW22".data = some s → s ≠ [] →
      ∃ row ∈ (IndexDb.upsert_product 5 "twinset.com".data
          "https://www.twinset.com/en/p-1.html".data (some "NEW22".data) none none
          "{}".data c10Products c10SkuIndex).2,
        row.site = "twinset.com".data ∧ row.sku = s ∧
          row.url = "https://www.twinset.com/en/p-1.html".data) ∧
    ((IndexDb.upsert_product 5 "twinset.com".data
        "https://www.twinset.com/en/p-1.html".data (some "NEW22".data) none none
        "{}".data c10Products c10SkuIndex).1.filter
          (fun r => decide (r.site = "twinset.com".data ∧
            r.url = "https://www.twinset.com/en/p-1.html".data))).length = 1 ∧
    (∀ p ∈ (IndexDb.upsert_product 5 "twinset.com".data
        "https://www.twinset.com/en/p-1.html".data (some "NEW22".data) none none
        "{}".data c10Products c10SkuIndex).1.filter
          (fun r => decide (r.site = "twinset.com".data ∧
            r.url = "https://www.twinset.com/en/p-1.html".data)),
      p.sku = some "NEW22".data) :=
  claim_C10 5 "twinset.com".data "https://www.twinset.com/en/p-1.html".data
    (some "NEW22".data) none none "{}".data c10Products c10SkuIndex (by decide)

/-- C7 (confirmed): classification is a pure function of the normalized URL
(two URLs with the same normal form classify identically) and follows the
source cascade — twinset.ru: stale pattern → `other` outright, else product
pattern → `product`, else category pattern → `category`, else `other`;
twinset.com: product pattern → `product` exactly when a SKU is syntactically
derivable from the final segment, demoted to `category` otherwise, else
category pattern → `category`, else `other`.  Concretely, a twinset.com URL
with a derivable SKU is a product, one of product shape without a SKU is a
category, a bare numeric twinset.ru catalog path is stale (`other`) and a
named twinset.ru catalog path with a numeric id is a product. -/
theorem claim_C7 (site : Site) (u v : List Char)
    (hsame : strip_query_and_fragment v = strip_query_and_fragment u) :
    classify_url site v = classify_url site u ∧
    classify_url Site.ru u =
      (if ruStaleRe (strip_query_and_fragment u) then "other".data
       else if ruProductRe (strip_query_and_fragment u) then "product".data
       else if ruCategoryRe (strip_query_and_fragment u) then "category".data
       else "other".data) ∧
    classify_url Site.com u =
      (if comProductRe (strip_query_and_fragment u) then
        (if (extract_twinset_com_sku_from_url (strip_query_and_fragment u)).isSome
          then "product".data else "category".data)
       else if comCategoryRe (strip_query_and_fragment u) then "category".data
       else "other".data) ∧
    classify_url Site.com "https://www.twinset.com/en/dress-123AB4567.html".data =
      "product".data ∧
    classify_url Site.com "https://www.twinset.com/en/women-dresses.html".data =
      "category".data ∧
    classify_url Site.ru "https://twinset.ru/catalog/123".data = "other".data ∧
    classify_url Site.ru "https://twinset.ru/catalog/dresses/456".data =
      "product".data := by
  refine ⟨?_, rfl, rfl, by decide, by decide, by decide, by decide⟩
  simp only [classify_url]
  rw [hsame]

/-- C7 witness: the query string `?page=2` does not change the normal form,
so the URL classifies the same with and without it. -/
theorem claim_C7_witness :
    classify_url Site.ru "https://twinset.ru/catalog/dresses/456?page=2".data =
      classify_url Site.ru "https://twinset.ru/catalog/dresses/456".data ∧
    classify_url Site.ru "https://twinset.ru/catalog/dresses/456".data =
      (if ruStaleRe (strip_query_and_fragment
          "https://twinset.ru/catalog/dresses/456".data) then "other".data
       else if ruProductRe (strip_query_and_fragment
          "https://twinset.ru/catalog/dresses/456".data) then "product".data
       else if ruCategoryRe (strip_query_and_fragment
          "https://twinset.ru/catalog/dresses/456".data) then "category".data
       else "other".data) ∧
    classify_url Site.com "https://twinset.ru/catalog/dresses/456".data =
      (if comProductRe (strip_query_and_fragment
          "https://twinset.ru/catalog/dresses/456".data) then
        (if (extract_twinset_com_sku_from_url (strip_query_and_fragment
            "https://twinset.ru/catalog/dresses/456".data)).isSome
          then "product".data else "category".data)
       else if comCategoryRe (strip_query_and_fragment
          "https://twinset.ru/catalog/dresses/456".data) then "category".data
       else "other".data) ∧
    classify_url Site.com "https://www.twinset.com/en/dress-123AB4567.html".data =
      "product".data ∧
    classify_url Site.com "https://www.twinset.com/en/women-dresses.html".data =
      "category".data ∧
    classify_url Site.ru "https://twinset.ru/catalog/123".data = "other".data ∧
    classify_url Site.ru "https://twinset.ru/catalog/dresses/456".data =
      "product".data :=
  claim_C7 Site.ru "https://twinset.ru/catalog/dresses/456".data
    "https://twinset.ru/catalog/dresses/456?page=2".data (by decide)

/-- C2 (corrected): `strip_query_and_fragment` is not idempotent on every
URL (see the counterexample); it is idempotent on every URL whose parse has
a nonempty netloc and whose normal form ends in neither `'/'` nor `';'`. -/
theorem claim_C2 (u : List Char) (hnet : (pyUrlparse u).netloc ≠ [])
    (hslash : (strip_query_and_fragment u).getLast? ≠ some '/')
    (hsemi : (strip_query_and_fragment u).getLast? ≠ some ';') :
    strip_query_and_fragment (strip_query_and_fragment u) =
      strip_query_and_fragment u :=
  strip_query_and_fragment_idem u hnet hslash hsemi

/-- C2 witness: a twinset.ru catalog URL with query and fragment normalizes
to a form that re-normalizes to itself. -/
theorem claim_C2_witness :
    strip_query_and_fragment (strip_query_and_fragment
      "https://twinset.ru/catalog/knitwear/123?page=2#top".data) =
    strip_query_and_fragment "https://twinset.ru/catalog/knitwear/123?page=2#top".data :=
  claim_C2 "https://twinset.ru/catalog/knitwear/123?page=2#top".data
    (by decide) (by decide) (by decide)

/-- C2 counterexample: the twinset.com trailing-slash trim removes one slash
per call, so `https://www.twinset.com/a//` normalizes to `.../a/` and then
to `.../a` — normalization is not idempotent. -/
theorem claim_C2_counterexample :
    strip_query_and_fragment (strip_query_and_fragment
      "https://www.twinset.com/a//".data) ≠
      strip_query_and_fragment "https://www.twinset.com/a//".data := by decide

/-- The queue row whose URL the C1 witness fetches. -/
def c1Row : QueueRow :=
  { site := "twinset.ru".data, url := "https://twinset.ru/catalog/shoes/3".data,
    url_type := "product".data, status := "pending".data, depth := 0,
    discovered_from := none, attempts := 0, last_http_status := none,
    blocked := false, last_error := none, updated_at := 2 }

/-- C1 (corrected): when every attempt raises an HTTP error, `get_bytes`
does raise it to the caller — but only on the final attempt, after sleeping
`1.2·attempt` seconds (modelled as `12·attempt` deciseconds) before each
retry, so HTTP-level errors DO trigger the retry backoff, contrary to the
claim; the crawl loop then sets a 404/410 item to `gone` (not `error`) with
the status code recorded. -/
theorem claim_C1 (responses : Nat → AttemptResult) (code retries now : Nat)
    (site url msg : List Char) (q : List QueueRow) (i : Nat) (r : QueueRow)
    (h1 : 1 ≤ retries) (hresp : ∀ a, responses a = .httpErr code)
    (hr : q.get? i = some r) (hkey : r.site = site ∧ r.url = url)
    (hcode : code = 404 ∨ code = 410) :
    get_bytes responses retries =
      (.httpError code, (List.range (retries - 1)).map (fun k => 12 * (1 + k))) ∧
    ∃ r', (crawl_urls_on_exc now site url (.httpError code msg) q).get? i = some r' ∧
      r'.status = "gone".data ∧ r'.last_http_status = some code := by
  refine ⟨get_bytes_http responses code retries h1 hresp, ?_⟩
  simp only [crawl_urls_on_exc]
  rw [if_pos hcode]
  obtain ⟨r', hget, hpos, _⟩ := set_url_status_get? now site url ("gone".data)
    (some code) false (some ("HTTP ".data ++ (Nat.repr code).data)) q i r hr
  refine ⟨r', hget, ?_, ?_⟩ <;> rw [hpos hkey]

/-- C1 witness: three attempts all answering HTTP 404 — `get_bytes` raises
the 404 after two backoff sleeps, and the queue row goes to `gone` with the
code recorded. -/
theorem claim_C1_witness :
    get_bytes (fun _ => AttemptResult.httpErr 404) 3 =
      (.httpError 404, (List.range 2).map (fun k => 12 * (1 + k))) ∧
    ∃ r', (crawl_urls_on_exc 9 "twinset.ru".data
        "https://twinset.ru/catalog/shoes/3".data
        (.httpError 404 "HTTP Error 404: Not Found".data) [c1Row]).get? 0 = some r' ∧
      r'.status = "gone".data ∧ r'.last_http_status = some 404 :=
  claim_C1 (fun _ => AttemptResult.httpErr 404) 404 3 9 "twinset.ru".data
    "https://twinset.ru/catalog/shoes/3".data "HTTP Error 404: Not Found".data
    [c1Row] 0 c1Row (by decide) (fun _ => rfl) rfl ⟨rfl, rfl⟩ (Or.inl rfl)

/-- C1 counterexample: with three attempts all answering HTTP 404, the
client sleeps twice (1.2·1 and 1.2·2 seconds, i.e. 12 and 24 deciseconds)
before raising — refuting "without performing its retry-with-backoff
sleeps (backoff applies only to network-level errors)". -/
theorem claim_C1_counterexample :
    (get_bytes (fun _ => AttemptResult.httpErr 404) 3).2 = [12, 24] ∧
    (get_bytes (fun _ => AttemptResult.httpErr 404) 3).2 ≠ [] := by
  have h := get_bytes_http (fun _ => AttemptResult.httpErr 404) 404 3 (by decide)
    (fun _ => rfl)
  rw [h]
  exact ⟨rfl, by decide⟩

/-- The root sitemap record of the C9 scenarios. -/
def c9Sitemap0 : SitemapRow :=
  { site := "twinset.ru".data, url := "https://twinset.ru/sitemap.xml".data,
    status := "pending".data, discovered_from := none, item_count := none,
    attempts := 0, last_error := none, updated_at := 0 }

/-- The initial crawl state of the C9 scenarios: one pending root sitemap,
an empty URL queue. -/
def c9State0 : CrawlState := { sitemaps := [c9Sitemap0], url_queue := [], clock := 1 }

/-- C9 counterexample network: the root sitemap holds a single non-sitemap
`<loc>` that classifies as `other`. -/
def c9OtherLocs : List Char → Option (List (List Char)) := fun u =>
  if u = "https://twinset.ru/sitemap.xml".data then
    some ["https://twinset.ru/info/about".data]
  else none

/-- C9 scenario network: a sitemap index pointing to two leaf sitemaps, each
holding one product URL. -/
def c9Locs : List Char → Option (List (List Char)) := fun u =>
  if u = "https://twinset.ru/sitemap.xml".data then
    some ["https://twinset.ru/sm1.xml".data, "https://twinset.ru/sm2.xml".data]
  else if u = "https://twinset.ru/sm1.xml".data then
    some ["https://twinset.ru/catalog/dresses/1".data]
  else if u = "https://twinset.ru/sm2.xml".data then
    some ["https://twinset.ru/catalog/coats/2".data]
  else none

/-- C9 (corrected): a `<loc>` whose normal form ends in `.xml`/`.xml.gz` is
enqueued as a nested sitemap record; any other `<loc>` is classified, and
enqueued at depth 0 only when the classification is `product` or `category`
— one classified `other` is dropped, not enqueued (see the counterexample).
Resolving a sitemap index pointing to two leaf sitemaps, each with one
product URL, still yields exactly the two product queue items at depth 0. -/
theorem claim_C9 (site_cfg : Site) (next_url loc : List Char) (st : CrawlState) :
    ((".xml".data.isSuffixOf (lowerStr (strip_query_and_fragment loc)) ||
        ".xml.gz".data.isSuffixOf (lowerStr (strip_query_and_fragment loc))) = true →
      crawl_process_loc site_cfg next_url st loc =
        enqueue_sitemap (site_key site_cfg) (strip_query_and_fragment loc)
          (some next_url) st) ∧
    ((".xml".data.isSuffixOf (lowerStr (strip_query_and_fragment loc)) ||
        ".xml.gz".data.isSuffixOf (lowerStr (strip_query_and_fragment loc))) = false →
      (classify_url site_cfg (strip_query_and_fragment loc) = "product".data ∨
          classify_url site_cfg (strip_query_and_fragment loc) = "category".data →
        crawl_process_loc site_cfg next_url st loc =
          enqueue_url_st (site_key site_cfg) (strip_query_and_fragment loc)
            (classify_url site_cfg (strip_query_and_fragment loc)) 0 (some next_url) st) ∧
      (classify_url site_cfg (strip_query_and_fragment loc) ≠ "product".data →
        classify_url site_cfg (strip_query_and_fragment loc) ≠ "category".data →
        crawl_process_loc site_cfg next_url st loc = st)) ∧
    (crawl_sitemaps_loop c9Locs Site.ru 4 c9State0).url_queue.map
        (fun r => (r.url, r.url_type, r.depth)) =
      [("https://twinset.ru/catalog/dresses/1".data, "product".data, 0),
       ("https://twinset.ru/catalog/coats/2".data, "product".data, 0)] := by
  refine ⟨?_, fun h1 => ⟨?_, ?_⟩, by decide⟩
  · intro h
    simp only [crawl_process_loc]
    rw [if_pos h]
  · intro h2
    simp only [crawl_process_loc]
    rw [if_neg (by rw [h1]; exact Bool.false_ne_true)]
    rw [if_pos h2]
  · intro h2 h3
    simp only [crawl_process_loc]
    rw [if_neg (by rw [h1]; exact Bool.false_ne_true)]
    rw [if_neg (fun hc => hc.elim h2 h3)]

/-- C9 counterexample: the root sitemap's only `<loc>` is no nested sitemap
and classifies as `other`; after the resolution step the URL queue is still
empty, so non-sitemap `<loc>` values are NOT all enqueued. -/
theorem claim_C9_counterexample :
    classify_url Site.ru "https://twinset.ru/info/about".data = "other".data ∧
    (".xml".data.isSuffixOf (lowerStr (strip_query_and_fragment
        "https://twinset.ru/info/about".data)) ||
      ".xml.gz".data.isSuffixOf (lowerStr (strip_query_and_fragment
        "https://twinset.ru/info/about".data))) = false ∧
    (crawl_sitemaps_step c9OtherLocs Site.ru c9State0).map (fun st => st.url_queue) =
      some [] := by decide

end TwinsetIndexer